import Mathlib

/-!
# Personal music library (`main.c`): the linked list of songs

The program keeps its songs in a singly linked list of `Node`s reached from
`headOfList`.  The embedding below represents the chain reachable from the head
as a `List Node` (the `nextNode` field is the list structure, `NULL` is the
empty chain) and a pointer into the chain as the position of the node it points
to.  Every function of the source that walks or rewires the chain is transcribed
statement by statement over that representation.  A function returns `Except.error` when
it reads through a null pointer; each loop over the chain is given as many executions of
its body as the chain has nodes.  Strings are values.  The copy that `rawInsertSong` makes
with `malloc(strlen(x))` and `strcpy` holds the string when the string and its terminator
fit the block that `malloc` hands out (`blockSize`), and is a write past the block
otherwise, which ends the run with `Fault.blockOverrun`.  The teardown at the end of `main`
and the line reader `inputStringFromUser` (over a buffer of given size and the list of
characters still to be read) are transcribed the same way.
-/

namespace MusicLibrary

/-! ## Strings -/

/-- A C string, given by its bytes before the terminating NUL. -/
abbrev CString := List Nat

/-- Byte-wise comparison `strcmp`: the difference of the first pair of bytes that
differ, a proper prefix comparing smaller. -/
def strcmp : CString → CString → Int
  | [], [] => 0
  | [], _ :: _ => -1
  | _ :: _, [] => 1
  | a :: as, b :: bs => if a = b then strcmp as bs else (a : Int) - (b : Int)

/-! ## Nodes, chains and pointers -/

/-- A node of the linked list (`nextNode` is the position in the chain). -/
structure Node where
  artist : CString
  songName : CString
  genre : CString
deriving DecidableEq, Repr

/-- The chain of nodes reachable from `headOfList`; `[]` is `headOfList == NULL`. -/
abbrev Catalog := List Node

/-- A `Node*` into the chain: `none` is `NULL`, `some i` the `i`-th node from the head. -/
abbrev Ptr := Option Nat

/-- How a run of a function can fail to return a result: a read through a null pointer
(`nullDeref`), the fuel of a loop used up (`outOfFuel`), or a write past the end of an
allocated block (`blockOverrun`), from where on the behaviour of the program is undefined. -/
inductive Fault where
  | nullDeref
  | outOfFuel
  | blockOverrun
deriving DecidableEq, Repr

/-- The value of `head` for a chain. -/
def headPtr (l : Catalog) : Ptr :=
  match l with
  | [] => none
  | _ :: _ => some 0

/-- Reading through a pointer: `p->...`; faults on `NULL` (or a position outside the chain). -/
def deref (l : Catalog) (p : Ptr) : Except Fault Node :=
  match p with
  | none => Except.error Fault.nullDeref
  | some i =>
    match l[i]? with
    | none => Except.error Fault.nullDeref
    | some nd => Except.ok nd

/-- The field `nextNode` of the node at position `i`. -/
def nextNodeOf (l : Catalog) (i : Nat) : Ptr :=
  if i + 1 < l.length then some (i + 1) else none

/-! ## Messages printed by the support functions -/

/-- One call of a printing support function. -/
inductive Output where
  | songNameDuplicate (songName : CString)
  | songNameFound (songName : CString)
  | songNameNotFound (songName : CString)
  | songNameDeleted (songName : CString)
  | printMusicLibraryEmpty
  | printMusicLibraryTitle
  | printNodeContents (nodeToBePrinted : Node)
deriving DecidableEq, Repr

/-! ## Insertion -/

/-- The number of bytes in the block that `malloc` hands out for a request.  The allocator
belongs to the C library, not to the program; the sizes taken here are those of the GNU
allocator on a 64-bit machine: 24 bytes for a request of up to 24 bytes, and above that the
request rounded up to the next of 40, 56, 72, ... -/
def blockSize (request : Nat) : Nat :=
  if request ≤ 24 then 24 else (request + 23) / 16 * 16 - 8

/-- The string and the terminating NUL that `strcpy` writes after it fit the block that
`malloc(strlen(x))` hands out. -/
def fits (x : CString) : Prop := x.length + 1 ≤ blockSize x.length

instance (x : CString) : Decidable (fits x) :=
  inferInstanceAs (Decidable (x.length + 1 ≤ blockSize x.length))

/-- The name, the artist and the genre each fit the block allocated for them. -/
def allFit (name artist genre : CString) : Prop := fits name ∧ fits artist ∧ fits genre

instance (name artist genre : CString) : Decidable (allFit name artist genre) :=
  inferInstanceAs (Decidable (fits name ∧ fits artist ∧ fits genre))

/-- The pair `malloc(strlen(x)*sizeof(char))`, `strcpy` of `rawInsertSong` (lines 218-223
and 228-233).  The request is one byte short of what `strcpy` writes, so the terminator
goes past the block unless the block is larger than requested.  The result is the string
that the field of the node holds. -/
def copyString (x : CString) : Except Fault CString :=
  if fits x then Except.ok x else Except.error Fault.blockOverrun

/-- Function `rawInsertSong`: allocates a node and copies the three strings into blocks of
their own, the name first, then the artist, then the genre.  With `previousNode == NULL`
the new node is a chain of its own (`nextNode = NULL`); otherwise it is linked into the
chain right after `previousNode`.  The result is the chain that holds the new node. -/
def rawInsertSong (name artist genre : CString) (l : Catalog) (previousNode : Ptr) :
    Except Fault Catalog :=
  match copyString name with
  | Except.error e => Except.error e
  | Except.ok songName =>
    match copyString artist with
    | Except.error e => Except.error e
    | Except.ok artistCopy =>
      match copyString genre with
      | Except.error e => Except.error e
      | Except.ok genreCopy =>
        let thisNode : Node := { artist := artistCopy, songName := songName, genre := genreCopy }
        match previousNode with
        | none => Except.ok [thisNode]
        | some p => Except.ok (l.take (p + 1) ++ thisNode :: l.drop (p + 1))

/-- The `while` loop of `insertSong` (lines 195-200) on the state
`(previousNode, nextNode)`; one unit of fuel per execution of the body. -/
def insertLoop (l : Catalog) (name : CString) : Nat → Nat → Ptr → Except Fault (Nat × Ptr)
  | _, previousNode, none => Except.ok (previousNode, none)
  | fuel, previousNode, some nx =>
    match deref l (some nx) with
    | Except.error e => Except.error e
    | Except.ok nextN =>
      if strcmp name nextN.songName > 0 then
        match fuel with
        | 0 => Except.error Fault.outOfFuel
        | fuel + 1 =>
          match deref l (some previousNode) with
          | Except.error e => Except.error e
          | Except.ok _ =>
            match nextNodeOf l previousNode with
            | none => Except.ok (previousNode, none)
            | some nx2 => insertLoop l name fuel nx2 (some nx2)
      else Except.ok (previousNode, some nx)

/-- Function `insertSong`: the messages printed and the chain `*headRef` afterwards. -/
def insertSong (name artist genre : CString) (l : Catalog) :
    Except Fault (List Output × Catalog) :=
  match l with
  | [] =>
    match rawInsertSong name artist genre l none with
    | Except.error e => Except.error e
    | Except.ok head => Except.ok ([], head)
  | hd :: _ =>
    if strcmp name hd.songName < 0 then
      match rawInsertSong name artist genre l none with
      | Except.error e => Except.error e
      | Except.ok thisNode => Except.ok ([], thisNode ++ l)
    else if strcmp name hd.songName = 0 then
      Except.ok ([Output.songNameDuplicate name], l)
    else
      match insertLoop l name l.length 0 (nextNodeOf l 0) with
      | Except.error e => Except.error e
      | Except.ok (previousNode, nextNode) =>
        match nextNode with
        | some nx =>
          match deref l (some nx) with
          | Except.error e => Except.error e
          | Except.ok nextN =>
            if strcmp nextN.songName name ≠ 0 then
              match rawInsertSong name artist genre l (some previousNode) with
              | Except.error e => Except.error e
              | Except.ok l2 => Except.ok ([], l2)
            else
              Except.ok ([Output.songNameDuplicate name], l)
        | none =>
          match rawInsertSong name artist genre l (some previousNode) with
          | Except.error e => Except.error e
          | Except.ok l2 => Except.ok ([], l2)

/-! ## The three scans -/

/-- How one of the scanning loops was left: by its condition or the `break` on
`nextNode == NULL` (with the final `previousNode` and `nextNode`), or by finding the song
at the node given. -/
inductive ScanExit where
  | fellThrough (previousNode : Nat) (nextNode : Ptr)
  | hit (previousNode : Nat) (nextNode : Ptr) (foundNode : Nat)
deriving DecidableEq, Repr

/-- The `while` loop of `searchSong` (lines 245-260); one unit of fuel per execution of
the body.  A hit is left through `break`, with `found = true`. -/
def searchLoop (l : Catalog) (songToBeSearched : CString) :
    Nat → Nat → Ptr → Except Fault ScanExit
  | _, previousNode, none => Except.ok (ScanExit.fellThrough previousNode none)
  | 0, _, some _ => Except.error Fault.outOfFuel
  | fuel + 1, previousNode, some _ =>
    match deref l (some previousNode) with
    | Except.error e => Except.error e
    | Except.ok prevN =>
      match nextNodeOf l previousNode with
      | none => Except.ok (ScanExit.fellThrough previousNode none)
      | some nx =>
        if strcmp prevN.songName songToBeSearched = 0 then
          Except.ok (ScanExit.hit previousNode (some nx) previousNode)
        else
          match deref l (some nx) with
          | Except.error e => Except.error e
          | Except.ok nextN =>
            if strcmp nextN.songName songToBeSearched = 0 then
              Except.ok (ScanExit.hit previousNode (some nx) nx)
            else searchLoop l songToBeSearched fuel nx (some nx)

/-- Function `searchSong`: the messages it prints.  It takes `head` by value and stores
nothing, so the chain is the same afterwards. -/
def searchSong (l : Catalog) (songToBeSearched : CString) : Except Fault (List Output) :=
  match deref l (headPtr l) with
  | Except.error e => Except.error e
  | Except.ok headN =>
    match searchLoop l songToBeSearched l.length 0 (nextNodeOf l 0) with
    | Except.error e => Except.error e
    | Except.ok (ScanExit.hit previousNode nextNode foundNode) =>
      match deref l (some foundNode) with
      | Except.error e => Except.error e
      | Except.ok foundN =>
        let out := [Output.songNameFound songToBeSearched, Output.printNodeContents foundN]
        if previousNode = 0 ∧ strcmp headN.songName songToBeSearched = 0 ∧ nextNode = none then
          Except.ok (out ++
            [Output.songNameFound songToBeSearched, Output.printNodeContents headN])
        else Except.ok out
    | Except.ok (ScanExit.fellThrough previousNode nextNode) =>
      if previousNode = 0 ∧ strcmp headN.songName songToBeSearched = 0 ∧ nextNode = none then
        Except.ok [Output.songNameFound songToBeSearched, Output.printNodeContents headN]
      else Except.ok [Output.songNameNotFound songToBeSearched]

/-- The `while` loop of `rawSearchSong` (lines 276-288) on the state
`(previousPreviousNode, previousNode, nextNode)`.  A hit is a `return` from inside the
loop: the node returned and the value stored in `*songBeforeSearchedSong`. -/
def rawSearchLoop (l : Catalog) (songToBeSearched : CString) :
    Nat → Ptr → Nat → Ptr → Except Fault (Sum (Ptr × Ptr) (Nat × Ptr))
  | _, _, previousNode, none => Except.ok (Sum.inr (previousNode, none))
  | 0, _, _, some _ => Except.error Fault.outOfFuel
  | fuel + 1, previousPreviousNode, previousNode, some _ =>
    match deref l (some previousNode) with
    | Except.error e => Except.error e
    | Except.ok prevN =>
      match nextNodeOf l previousNode with
      | none => Except.ok (Sum.inr (previousNode, none))
      | some nx =>
        if strcmp prevN.songName songToBeSearched = 0 then
          Except.ok (Sum.inl (some previousNode, previousPreviousNode))
        else
          match deref l (some nx) with
          | Except.error e => Except.error e
          | Except.ok nextN =>
            if strcmp nextN.songName songToBeSearched = 0 then
              Except.ok (Sum.inl (some nx, some previousNode))
            else rawSearchLoop l songToBeSearched fuel (some nx) nx (some nx)

/-- Function `rawSearchSong`: the pointer returned and the pointer stored in
`*songBeforeSearchedSong`. -/
def rawSearchSong (l : Catalog) (songToBeSearched : CString) : Except Fault (Ptr × Ptr) :=
  match deref l (headPtr l) with
  | Except.error e => Except.error e
  | Except.ok headN =>
    match rawSearchLoop l songToBeSearched l.length none 0 (nextNodeOf l 0) with
    | Except.error e => Except.error e
    | Except.ok (Sum.inl r) => Except.ok r
    | Except.ok (Sum.inr (previousNode, nextNode)) =>
      if previousNode = 0 ∧ strcmp headN.songName songToBeSearched = 0 ∧ nextNode = none then
        Except.ok (some 0, none)
      else Except.ok (none, none)

/-- The `while` loop of `songExists` (lines 365-376): the final `previousNode`,
`nextNode` and `found`. -/
def existsLoop (l : Catalog) (songToBeSearched : CString) :
    Nat → Nat → Ptr → Except Fault (Nat × Ptr × Bool)
  | _, previousNode, none => Except.ok (previousNode, none, false)
  | 0, _, some _ => Except.error Fault.outOfFuel
  | fuel + 1, previousNode, some _ =>
    match deref l (some previousNode) with
    | Except.error e => Except.error e
    | Except.ok prevN =>
      match nextNodeOf l previousNode with
      | none => Except.ok (previousNode, none, false)
      | some nx =>
        if strcmp prevN.songName songToBeSearched = 0 then
          Except.ok (previousNode, some nx, true)
        else
          match deref l (some nx) with
          | Except.error e => Except.error e
          | Except.ok nextN =>
            if strcmp nextN.songName songToBeSearched = 0 then
              Except.ok (previousNode, some nx, true)
            else existsLoop l songToBeSearched fuel nx (some nx)

/-- Function `songExists`. -/
def songExists (l : Catalog) (songToBeSearched : CString) : Except Fault Bool :=
  match deref l (headPtr l) with
  | Except.error e => Except.error e
  | Except.ok headN =>
    match existsLoop l songToBeSearched l.length 0 (nextNodeOf l 0) with
    | Except.error e => Except.error e
    | Except.ok (previousNode, nextNode, found) =>
      if previousNode = 0 ∧ strcmp headN.songName songToBeSearched = 0 ∧ nextNode = none then
        Except.ok true
      else Except.ok found

/-! ## Deletion -/

/-- Function `rawDeleteSong`: whether the song was found, and the chain `*headRef`
afterwards.  With `previousNode == NULL` the head becomes the successor of the node found;
otherwise `previousNode->nextNode` is routed to that successor. -/
def rawDeleteSong (l : Catalog) (songToBeDeleted : CString) : Except Fault (Bool × Catalog) :=
  match rawSearchSong l songToBeDeleted with
  | Except.error e => Except.error e
  | Except.ok (songToBeDeletedRef, previousNode) =>
    match songToBeDeletedRef with
    | some f =>
      match previousNode with
      | none => Except.ok (true, l.drop (f + 1))
      | some p => Except.ok (true, l.take (p + 1) ++ l.drop (f + 1))
    | none => Except.ok (false, l)

/-- Function `deleteSong`: the messages printed and the chain `*headRef` afterwards. -/
def deleteSong (l : Catalog) (songToBeDeleted : CString) :
    Except Fault (List Output × Catalog) :=
  match songExists l songToBeDeleted with
  | Except.error e => Except.error e
  | Except.ok true =>
    match rawDeleteSong l songToBeDeleted with
    | Except.error e => Except.error e
    | Except.ok (_, l2) => Except.ok ([Output.songNameDeleted songToBeDeleted], l2)
  | Except.ok false => Except.ok ([Output.songNameNotFound songToBeDeleted], l)

/-! ## Listing -/

/-- The `while` loop of `printList` (lines 350-355): the nodes printed and the final
`previousNode`; one unit of fuel per execution of the body. -/
def printLoop (l : Catalog) : Nat → Nat → Ptr → Except Fault (List Output × Nat)
  | _, previousNode, none => Except.ok ([], previousNode)
  | 0, _, some _ => Except.error Fault.outOfFuel
  | fuel + 1, previousNode, some _ =>
    match deref l (some previousNode) with
    | Except.error e => Except.error e
    | Except.ok prevN =>
      match nextNodeOf l previousNode with
      | none => Except.ok ([], previousNode)
      | some nx =>
        match printLoop l fuel nx (some nx) with
        | Except.error e => Except.error e
        | Except.ok (out, last) => Except.ok (Output.printNodeContents prevN :: out, last)

/-- Function `printList`: the messages it prints. -/
def printList (l : Catalog) : Except Fault (List Output) :=
  match headPtr l with
  | none => Except.ok [Output.printMusicLibraryEmpty]
  | some hd =>
    match deref l (some hd) with
    | Except.error e => Except.error e
    | Except.ok _ =>
      match printLoop l l.length hd (nextNodeOf l hd) with
      | Except.error e => Except.error e
      | Except.ok (out, last) =>
        match deref l (some last) with
        | Except.error e => Except.error e
        | Except.ok lastN =>
          Except.ok (Output.printMusicLibraryTitle :: out ++ [Output.printNodeContents lastN])

/-! ## Order and reachability -/

/-- The entries are strictly ascending by song name: every entry compares smaller
(`strcmp < 0`) than the one after it. -/
def StrictAscending : Catalog → Prop
  | a :: b :: rest => strcmp a.songName b.songName < 0 ∧ StrictAscending (b :: rest)
  | _ => True

/-- Deciding `StrictAscending` by walking the chain. -/
def decStrictAscending : (l : Catalog) → Decidable (StrictAscending l)
  | [] => isTrue (by simp [StrictAscending])
  | [_] => isTrue (by simp [StrictAscending])
  | a :: b :: rest =>
    have := decStrictAscending (b :: rest)
    decidable_of_iff (strcmp a.songName b.songName < 0 ∧ StrictAscending (b :: rest))
      (by simp [StrictAscending])

instance (l : Catalog) : Decidable (StrictAscending l) := decStrictAscending l

/-- The chains the program can hold: `headOfList` starts as `NULL`, and the command loop of
`main` changes it only through `insertSong` and `deleteSong` (the latter taken here on a
non-empty chain). -/
inductive Reachable : Catalog → Prop where
  | empty : Reachable []
  | insert (name artist genre : CString) {l l2 : Catalog} {out : List Output} :
      Reachable l → insertSong name artist genre l = Except.ok (out, l2) → Reachable l2
  | delete (name : CString) {l l2 : Catalog} {out : List Output} :
      Reachable l → l ≠ [] → deleteSong l name = Except.ok (out, l2) → Reachable l2

/-- The song names held in the chain, from the head on. -/
def songNames (l : Catalog) : List CString := l.map (fun nd => nd.songName)

/-! ## Sample songs -/

/-- The song named "A". -/
def songA : Node := { artist := [120], songName := [65], genre := [114] }

/-- The song named "B". -/
def songB : Node := { artist := [121], songName := [66], genre := [114] }

/-- The song named "C". -/
def songC : Node := { artist := [122], songName := [67], genre := [114] }

/-- A second song named "C", by another artist and of another genre. -/
def songC2 : Node := { artist := [119], songName := [67], genre := [112] }

/-- The song named "D". -/
def songD : Node := { artist := [118], songName := [68], genre := [114] }

/-- A name of 24 bytes, "AAAAAAAAAAAAAAAAAAAAAAAA": a request of 24 bytes gets a block of
24 bytes, so the terminator of this name goes past its block. -/
def longName : CString := List.replicate 24 65

/-! ## Teardown at the end of `main` -/

/-- Where the node at position `q` of the chain stands after `deleteSong` of that name;
`none` when it is no longer in the chain.  The call takes out the nodes after
`*songBeforeSearchedSong` up to the node that `rawSearchSong` returns (from the head on
when `NULL` was stored); the nodes behind them move up. -/
def positionAfterDelete (l : Catalog) (songToBeDeleted : CString) (q : Nat) :
    Except Fault (Option Nat) :=
  match songExists l songToBeDeleted with
  | Except.error e => Except.error e
  | Except.ok false => Except.ok (some q)
  | Except.ok true =>
    match rawSearchSong l songToBeDeleted with
    | Except.error e => Except.error e
    | Except.ok (none, _) => Except.ok (some q)
    | Except.ok (some f, none) =>
      Except.ok (if q ≤ f then none else some (q - (f + 1)))
    | Except.ok (some f, some p) =>
      Except.ok (if q ≤ p then some q else if q ≤ f then none else some (p + 1 + (q - (f + 1))))

/-- The `while` loop of the teardown in `main` (lines 110-115) on the state
`(headOfList, previousNode, nextNode)`; one unit of fuel per execution of the body.  The
result lists the calls of `deleteSong` made (the messages of each and the chain it left),
then the final chain and `previousNode`.  The pointer kept in `nextNode` across the call
is followed to the position its node has afterwards; if the call freed that node, the next
read through `previousNode` faults. -/
def teardownLoop :
    Nat → Catalog → Nat → Ptr → Except Fault (List (List Output × Catalog) × Catalog × Nat)
  | _, l, previousNode, none => Except.ok ([], l, previousNode)
  | 0, _, _, some _ => Except.error Fault.outOfFuel
  | fuel + 1, l, previousNode, some _ =>
    match deref l (some previousNode) with
    | Except.error e => Except.error e
    | Except.ok prevN =>
      match nextNodeOf l previousNode with
      | none => Except.ok ([], l, previousNode)
      | some nx =>
        match deleteSong l prevN.songName with
        | Except.error e => Except.error e
        | Except.ok (out, l2) =>
          match positionAfterDelete l prevN.songName nx with
          | Except.error e => Except.error e
          | Except.ok none => Except.error Fault.nullDeref
          | Except.ok (some nx2) =>
            match teardownLoop fuel l2 nx2 (some nx2) with
            | Except.error e => Except.error e
            | Except.ok (calls, l3, last) => Except.ok ((out, l2) :: calls, l3, last)

/-- The teardown at the end of `main` (lines 106-118): the calls of `deleteSong` made (the
messages of each and the chain it left), the chain that `headOfList` holds when
`headOfList = NULL` is reached, and `headOfList` at the end. -/
def teardown (l : Catalog) :
    Except Fault (List (List Output × Catalog) × Catalog × Catalog) :=
  match headPtr l with
  | none => Except.ok ([], l, l)
  | some hd =>
    match deref l (some hd) with
    | Except.error e => Except.error e
    | Except.ok _ =>
      match teardownLoop l.length l hd (nextNodeOf l hd) with
      | Except.error e => Except.error e
      | Except.ok (calls, l2, last) =>
        match deref l2 (some last) with
        | Except.error e => Except.error e
        | Except.ok lastN =>
          match deleteSong l2 lastN.songName with
          | Except.error e => Except.error e
          | Except.ok (out, l3) => Except.ok (calls ++ [(out, l3)], l3, [])

/-- One `deleteSong` per entry, each printing the deleted message and leaving the chain
without the entry that was its head: the run of calls that the teardown is to make. -/
def headDeletes : Catalog → List (List Output × Catalog)
  | [] => []
  | x :: rest => ([Output.songNameDeleted x.songName], rest) :: headDeletes rest

/-! ## Reading a line -/

/-- How a run of `inputStringFromUser` can stop without returning. -/
inductive InputFault where
  | overrun
  | outOfFuel
deriving DecidableEq, Repr

/-- The value that `c` holds after `c = getchar()` at the end of the input: `EOF`
converted to `char`. -/
def eofChar : Int := -1

/-- One `c = getchar()`: the next character of the input and the input left; at the end
of the input every call delivers `eofChar`. -/
def getchar (stdin : List Int) : Int × List Int :=
  match stdin with
  | [] => (eofChar, [])
  | c :: rest => (c, rest)

/-- The store `s[i] = c` into a buffer of `s.length` characters. -/
def store (s : List Int) (i : Int) (c : Int) : Except InputFault (List Int) :=
  if 0 ≤ i ∧ i < (s.length : Int) then Except.ok (s.set i.toNat c)
  else Except.error InputFault.overrun

/-- The `while` loop of `inputStringFromUser` (lines 133-134) on the state `(i, s)` and the
input left; one unit of fuel per execution of the body.  The newline is character 10. -/
def inputLoop (maxStrLength : Int) :
    Nat → Int → List Int → List Int → Except InputFault (Int × List Int × List Int)
  | fuel, i, s, stdin =>
    if i < maxStrLength then
      if (getchar stdin).1 ≠ 10 then
        match fuel with
        | 0 => Except.error InputFault.outOfFuel
        | fuel + 1 =>
          match store s i (getchar stdin).1 with
          | Except.error e => Except.error e
          | Except.ok s2 => inputLoop maxStrLength fuel (i + 1) s2 (getchar stdin).2
      else Except.ok (i, s, (getchar stdin).2)
    else Except.ok (i, s, stdin)

/-- Function `inputStringFromUser` (the prompt it prints left aside): the buffer `s` and
the input left afterwards. -/
def inputStringFromUser (s : List Int) (maxStrLength : Int) (stdin : List Int) :
    Except InputFault (List Int × List Int) :=
  match inputLoop maxStrLength maxStrLength.toNat 0 s stdin with
  | Except.error e => Except.error e
  | Except.ok (i, s2, rest) =>
    match store s2 i 0 with
    | Except.error e => Except.error e
    | Except.ok s3 => Except.ok (s3, rest)

/-- The characters that `getchar` delivers before the first newline, at most `m` of them,
reads past the end of the input included. -/
def lineRead (stdin : List Int) (m : Nat) : List Int :=
  match m with
  | 0 => []
  | m + 1 =>
    if (getchar stdin).1 = 10 then [] else (getchar stdin).1 :: lineRead (getchar stdin).2 m

/-- The name is greater than the second entry of the chain and smaller than its last one. -/
def betweenSecondAndLast (name : CString) (l : Catalog) : Bool :=
  match l[1]?, l.getLast? with
  | some second, some last =>
    decide (strcmp name second.songName > 0) && decide (strcmp name last.songName < 0)
  | _, _ => false

/-! ## Facts about `strcmp` -/

theorem strcmp_eq_zero_iff (a b : CString) : strcmp a b = 0 ↔ a = b := by
  induction a generalizing b with
  | nil => cases b <;> simp [strcmp]
  | cons x xs ih =>
    cases b with
    | nil => simp [strcmp]
    | cons y ys =>
      simp only [strcmp]
      split_ifs with h
      · subst h; simp [ih]
      · constructor
        · intro h2; exfalso; omega
        · intro h2; injection h2 with h3 _; exact absurd h3 h

theorem strcmp_self (a : CString) : strcmp a a = 0 := (strcmp_eq_zero_iff a a).2 rfl

theorem strcmp_pos_iff_swap_neg (a b : CString) : 0 < strcmp a b ↔ strcmp b a < 0 := by
  induction a generalizing b with
  | nil => cases b <;> simp [strcmp]
  | cons x xs ih =>
    cases b with
    | nil => simp [strcmp]
    | cons y ys =>
      simp only [strcmp]
      by_cases h : x = y
      · subst h; simp [ih]
      · have h2 : ¬ y = x := fun e => h e.symm
        simp only [h, h2, if_false]
        omega

theorem strcmp_neg_trans {a b c : CString} (h1 : strcmp a b < 0) (h2 : strcmp b c < 0) :
    strcmp a c < 0 := by
  induction a generalizing b c with
  | nil =>
    cases c with
    | nil => cases b <;> simp [strcmp] at h1 h2
    | cons z zs => simp [strcmp]
  | cons x xs ih =>
    cases b with
    | nil => simp [strcmp] at h1
    | cons y ys =>
      cases c with
      | nil => simp [strcmp] at h2
      | cons z zs =>
        simp only [strcmp] at h1 h2 ⊢
        by_cases hxy : x = y
        · subst hxy
          by_cases hxz : x = z
          · subst hxz
            simp only [if_true] at h1 h2 ⊢
            exact ih h1 h2
          · simp only [hxz, if_false, if_true] at h1 h2 ⊢
            exact h2
        · by_cases hyz : y = z
          · subst hyz
            simp only [hxy, if_false] at h1 ⊢
            exact h1
          · simp only [hxy, hyz, if_false] at h1 h2
            have hxz : ¬ x = z := by omega
            simp only [hxz, if_false]
            omega

/-! ## Reading the chain at a known position -/

theorem deref_at (front : List Node) (x : Node) (rest : List Node) :
    deref (front ++ x :: rest) (some front.length) = Except.ok x := by
  have h : (front ++ x :: rest)[front.length]? = some x := by
    rw [List.getElem?_append_right (Nat.le_refl _)]
    simp
  simp only [deref, h]

theorem deref_at_succ (front : List Node) (x y : Node) (rest : List Node) :
    deref (front ++ x :: y :: rest) (some (front.length + 1)) = Except.ok y := by
  have h : (front ++ x :: y :: rest)[front.length + 1]? = some y := by
    rw [List.getElem?_append_right (by omega)]
    simp
  simp [deref, h]

theorem nextNodeOf_at (front : List Node) (x y : Node) (rest : List Node) :
    nextNodeOf (front ++ x :: y :: rest) front.length = some (front.length + 1) := by
  simp [nextNodeOf]

theorem nextNodeOf_last (front : List Node) (x : Node) :
    nextNodeOf (front ++ [x]) front.length = none := by
  simp [nextNodeOf]

/-- Every list either satisfies `P` throughout or splits at its first element that does not. -/
theorem split_at_first_not {α : Type} (P : α → Prop) [DecidablePred P] (r : List α) :
    (∀ x ∈ r, P x) ∨
      ∃ seg z post, r = seg ++ z :: post ∧ (∀ x ∈ seg, P x) ∧ ¬ P z := by
  induction r with
  | nil => left; simp
  | cons a r ih =>
    by_cases ha : P a
    · rcases ih with h | ⟨seg, z, post, h1, h2, h3⟩
      · left
        intro x hx
        rcases List.mem_cons.1 hx with e | e
        · exact e ▸ ha
        · exact h x e
      · right
        refine ⟨a :: seg, z, post, by simp [h1], ?_, h3⟩
        intro x hx
        rcases List.mem_cons.1 hx with e | e
        · exact e ▸ ha
        · exact h2 x e
    · right
      exact ⟨[], a, r, rfl, by simp, ha⟩

/-! ## The scanning loops, from a node that does not carry the song -/

theorem searchLoop_hit (q : CString) (nd : Node) (post : List Node) (hnd : nd.songName = q) :
    ∀ (pre front : List Node) (x : Node) (fuel j : Nat) (l : Catalog),
      l = front ++ x :: (pre ++ nd :: post) → x.songName ≠ q →
      (∀ y ∈ pre, y.songName ≠ q) → pre.length + 1 ≤ fuel →
      searchLoop l q fuel front.length (some j) =
        Except.ok (ScanExit.hit (front.length + pre.length)
          (some (front.length + pre.length + 1)) (front.length + pre.length + 1)) := by
  intro pre
  induction pre with
  | nil =>
    intro front x fuel j l hl hx _ hf
    obtain ⟨f, rfl⟩ : ∃ f, fuel = f + 1 := ⟨fuel - 1, by simp at hf; omega⟩
    subst hl
    have hx2 : ¬ strcmp x.songName q = 0 := fun h => hx ((strcmp_eq_zero_iff _ _).1 h)
    have hn2 : strcmp nd.songName q = 0 := (strcmp_eq_zero_iff _ _).2 hnd
    simp only [List.nil_append, searchLoop, deref_at, nextNodeOf_at, deref_at_succ, hx2, hn2,
      if_true, if_false, List.length_nil, Nat.add_zero]
  | cons y pre ih =>
    intro front x fuel j l hl hx hpre hf
    obtain ⟨f, rfl⟩ : ∃ f, fuel = f + 1 := ⟨fuel - 1, by simp at hf; omega⟩
    have hx2 : ¬ strcmp x.songName q = 0 := fun h => hx ((strcmp_eq_zero_iff _ _).1 h)
    have hy : y.songName ≠ q := hpre y (by simp)
    have hy2 : ¬ strcmp y.songName q = 0 := fun h => hy ((strcmp_eq_zero_iff _ _).1 h)
    have step := ih (front ++ [x]) y f (front.length + 1) l (by simp [hl]) hy
      (fun z hz => hpre z (by simp [hz])) (by simp at hf; omega)
    subst hl
    simp only [List.cons_append, searchLoop, deref_at, nextNodeOf_at, deref_at_succ, hx2, hy2,
      if_false]
    simp only [List.length_append, List.length_singleton, List.cons_append] at step
    rw [step]
    simp only [List.length_cons]
    have e : front.length + 1 + pre.length = front.length + (pre.length + 1) := by omega
    rw [e]

theorem searchLoop_miss (q : CString) :
    ∀ (rest front : List Node) (x : Node) (fuel j : Nat) (l : Catalog),
      l = front ++ x :: rest → x.songName ≠ q →
      (∀ y ∈ rest, y.songName ≠ q) → rest.length + 1 ≤ fuel →
      searchLoop l q fuel front.length (some j) =
        Except.ok (ScanExit.fellThrough (front.length + rest.length) none) := by
  intro rest
  induction rest with
  | nil =>
    intro front x fuel j l hl hx _ hf
    obtain ⟨f, rfl⟩ : ∃ f, fuel = f + 1 := ⟨fuel - 1, by simp at hf; omega⟩
    subst hl
    simp only [searchLoop, deref_at, nextNodeOf_last, List.length_nil, Nat.add_zero]
  | cons y rest ih =>
    intro front x fuel j l hl hx hrest hf
    obtain ⟨f, rfl⟩ : ∃ f, fuel = f + 1 := ⟨fuel - 1, by simp at hf; omega⟩
    have hx2 : ¬ strcmp x.songName q = 0 := fun h => hx ((strcmp_eq_zero_iff _ _).1 h)
    have hy : y.songName ≠ q := hrest y (by simp)
    have hy2 : ¬ strcmp y.songName q = 0 := fun h => hy ((strcmp_eq_zero_iff _ _).1 h)
    have step := ih (front ++ [x]) y f (front.length + 1) l (by simp [hl]) hy
      (fun z hz => hrest z (by simp [hz])) (by simp at hf; omega)
    subst hl
    simp only [searchLoop, deref_at, nextNodeOf_at, deref_at_succ, hx2, hy2, if_false]
    simp only [List.length_append, List.length_singleton] at step
    rw [step]
    simp only [List.length_cons]
    have e : front.length + 1 + rest.length = front.length + (rest.length + 1) := by omega
    rw [e]

theorem rawSearchLoop_hit (q : CString) (nd : Node) (post : List Node) (hnd : nd.songName = q) :
    ∀ (pre front : List Node) (x : Node) (fuel j : Nat) (pp : Ptr) (l : Catalog),
      l = front ++ x :: (pre ++ nd :: post) → x.songName ≠ q →
      (∀ y ∈ pre, y.songName ≠ q) → pre.length + 1 ≤ fuel →
      rawSearchLoop l q fuel pp front.length (some j) =
        Except.ok (Sum.inl (some (front.length + pre.length + 1),
          some (front.length + pre.length))) := by
  intro pre
  induction pre with
  | nil =>
    intro front x fuel j pp l hl hx _ hf
    obtain ⟨f, rfl⟩ : ∃ f, fuel = f + 1 := ⟨fuel - 1, by simp at hf; omega⟩
    subst hl
    have hx2 : ¬ strcmp x.songName q = 0 := fun h => hx ((strcmp_eq_zero_iff _ _).1 h)
    have hn2 : strcmp nd.songName q = 0 := (strcmp_eq_zero_iff _ _).2 hnd
    simp only [List.nil_append, rawSearchLoop, deref_at, nextNodeOf_at, deref_at_succ, hx2,
      hn2, if_true, if_false, List.length_nil, Nat.add_zero]
  | cons y pre ih =>
    intro front x fuel j pp l hl hx hpre hf
    obtain ⟨f, rfl⟩ : ∃ f, fuel = f + 1 := ⟨fuel - 1, by simp at hf; omega⟩
    have hx2 : ¬ strcmp x.songName q = 0 := fun h => hx ((strcmp_eq_zero_iff _ _).1 h)
    have hy : y.songName ≠ q := hpre y (by simp)
    have hy2 : ¬ strcmp y.songName q = 0 := fun h => hy ((strcmp_eq_zero_iff _ _).1 h)
    have step := ih (front ++ [x]) y f (front.length + 1) (some (front.length + 1)) l
      (by simp [hl]) hy (fun z hz => hpre z (by simp [hz])) (by simp at hf; omega)
    subst hl
    simp only [List.cons_append, rawSearchLoop, deref_at, nextNodeOf_at, deref_at_succ, hx2,
      hy2, if_false]
    simp only [List.length_append, List.length_singleton, List.cons_append] at step
    rw [step]
    simp only [List.length_cons]
    have e : front.length + 1 + pre.length = front.length + (pre.length + 1) := by omega
    rw [e]

theorem rawSearchLoop_miss (q : CString) :
    ∀ (rest front : List Node) (x : Node) (fuel j : Nat) (pp : Ptr) (l : Catalog),
      l = front ++ x :: rest → x.songName ≠ q →
      (∀ y ∈ rest, y.songName ≠ q) → rest.length + 1 ≤ fuel →
      rawSearchLoop l q fuel pp front.length (some j) =
        Except.ok (Sum.inr (front.length + rest.length, none)) := by
  intro rest
  induction rest with
  | nil =>
    intro front x fuel j pp l hl hx _ hf
    obtain ⟨f, rfl⟩ : ∃ f, fuel = f + 1 := ⟨fuel - 1, by simp at hf; omega⟩
    subst hl
    simp only [rawSearchLoop, deref_at, nextNodeOf_last, List.length_nil, Nat.add_zero]
  | cons y rest ih =>
    intro front x fuel j pp l hl hx hrest hf
    obtain ⟨f, rfl⟩ : ∃ f, fuel = f + 1 := ⟨fuel - 1, by simp at hf; omega⟩
    have hx2 : ¬ strcmp x.songName q = 0 := fun h => hx ((strcmp_eq_zero_iff _ _).1 h)
    have hy : y.songName ≠ q := hrest y (by simp)
    have hy2 : ¬ strcmp y.songName q = 0 := fun h => hy ((strcmp_eq_zero_iff _ _).1 h)
    have step := ih (front ++ [x]) y f (front.length + 1) (some (front.length + 1)) l
      (by simp [hl]) hy (fun z hz => hrest z (by simp [hz])) (by simp at hf; omega)
    subst hl
    simp only [rawSearchLoop, deref_at, nextNodeOf_at, deref_at_succ, hx2, hy2, if_false]
    simp only [List.length_append, List.length_singleton] at step
    rw [step]
    simp only [List.length_cons]
    have e : front.length + 1 + rest.length = front.length + (rest.length + 1) := by omega
    rw [e]

theorem existsLoop_hit (q : CString) (nd : Node) (post : List Node) (hnd : nd.songName = q) :
    ∀ (pre front : List Node) (x : Node) (fuel j : Nat) (l : Catalog),
      l = front ++ x :: (pre ++ nd :: post) → x.songName ≠ q →
      (∀ y ∈ pre, y.songName ≠ q) → pre.length + 1 ≤ fuel →
      existsLoop l q fuel front.length (some j) =
        Except.ok (front.length + pre.length, some (front.length + pre.length + 1), true) := by
  intro pre
  induction pre with
  | nil =>
    intro front x fuel j l hl hx _ hf
    obtain ⟨f, rfl⟩ : ∃ f, fuel = f + 1 := ⟨fuel - 1, by simp at hf; omega⟩
    subst hl
    have hx2 : ¬ strcmp x.songName q = 0 := fun h => hx ((strcmp_eq_zero_iff _ _).1 h)
    have hn2 : strcmp nd.songName q = 0 := (strcmp_eq_zero_iff _ _).2 hnd
    simp only [List.nil_append, existsLoop, deref_at, nextNodeOf_at, deref_at_succ, hx2, hn2,
      if_true, if_false, List.length_nil, Nat.add_zero]
  | cons y pre ih =>
    intro front x fuel j l hl hx hpre hf
    obtain ⟨f, rfl⟩ : ∃ f, fuel = f + 1 := ⟨fuel - 1, by simp at hf; omega⟩
    have hx2 : ¬ strcmp x.songName q = 0 := fun h => hx ((strcmp_eq_zero_iff _ _).1 h)
    have hy : y.songName ≠ q := hpre y (by simp)
    have hy2 : ¬ strcmp y.songName q = 0 := fun h => hy ((strcmp_eq_zero_iff _ _).1 h)
    have step := ih (front ++ [x]) y f (front.length + 1) l (by simp [hl]) hy
      (fun z hz => hpre z (by simp [hz])) (by simp at hf; omega)
    subst hl
    simp only [List.cons_append, existsLoop, deref_at, nextNodeOf_at, deref_at_succ, hx2, hy2,
      if_false]
    simp only [List.length_append, List.length_singleton, List.cons_append] at step
    rw [step]
    simp only [List.length_cons]
    have e : front.length + 1 + pre.length = front.length + (pre.length + 1) := by omega
    rw [e]

theorem existsLoop_miss (q : CString) :
    ∀ (rest front : List Node) (x : Node) (fuel j : Nat) (l : Catalog),
      l = front ++ x :: rest → x.songName ≠ q →
      (∀ y ∈ rest, y.songName ≠ q) → rest.length + 1 ≤ fuel →
      existsLoop l q fuel front.length (some j) =
        Except.ok (front.length + rest.length, none, false) := by
  intro rest
  induction rest with
  | nil =>
    intro front x fuel j l hl hx _ hf
    obtain ⟨f, rfl⟩ : ∃ f, fuel = f + 1 := ⟨fuel - 1, by simp at hf; omega⟩
    subst hl
    simp only [existsLoop, deref_at, nextNodeOf_last, List.length_nil, Nat.add_zero]
  | cons y rest ih =>
    intro front x fuel j l hl hx hrest hf
    obtain ⟨f, rfl⟩ : ∃ f, fuel = f + 1 := ⟨fuel - 1, by simp at hf; omega⟩
    have hx2 : ¬ strcmp x.songName q = 0 := fun h => hx ((strcmp_eq_zero_iff _ _).1 h)
    have hy : y.songName ≠ q := hrest y (by simp)
    have hy2 : ¬ strcmp y.songName q = 0 := fun h => hy ((strcmp_eq_zero_iff _ _).1 h)
    have step := ih (front ++ [x]) y f (front.length + 1) l (by simp [hl]) hy
      (fun z hz => hrest z (by simp [hz])) (by simp at hf; omega)
    subst hl
    simp only [existsLoop, deref_at, nextNodeOf_at, deref_at_succ, hx2, hy2, if_false]
    simp only [List.length_append, List.length_singleton] at step
    rw [step]
    simp only [List.length_cons]
    have e : front.length + 1 + rest.length = front.length + (rest.length + 1) := by omega
    rw [e]

/-! ## The three scans on a non-empty chain -/

theorem deref_head (x : Node) (rest : List Node) :
    deref (x :: rest) (headPtr (x :: rest)) = Except.ok x := by
  simp [deref, headPtr]

theorem deref_zero (x : Node) (rest : List Node) :
    deref (x :: rest) (some 0) = Except.ok x := by
  simp [deref]

theorem deref_first_match (x : Node) (pre : List Node) (nd : Node) (post : List Node) :
    deref (x :: (pre ++ nd :: post)) (some (pre.length + 1)) = Except.ok nd :=
  deref_at (x :: pre) nd post

theorem nextNodeOf_zero (x y : Node) (rest : List Node) :
    nextNodeOf (x :: y :: rest) 0 = some 1 := by
  simp [nextNodeOf]

theorem nextNodeOf_single (x : Node) : nextNodeOf [x] 0 = none := by
  simp [nextNodeOf]

/-- Function `searchSong` on a chain whose first node named `q` is `nd`. -/
theorem searchSong_first_match (q : CString) (pre : List Node) (nd : Node) (post : List Node)
    (hpre : ∀ y ∈ pre, y.songName ≠ q) (hnd : nd.songName = q) :
    searchSong (pre ++ nd :: post) q =
      Except.ok [Output.songNameFound q, Output.printNodeContents nd] := by
  have hn2 : strcmp nd.songName q = 0 := (strcmp_eq_zero_iff _ _).2 hnd
  cases pre with
  | nil =>
    cases post with
    | nil =>
      simp [searchSong, deref_head, nextNodeOf_single, searchLoop, hn2]
    | cons y r =>
      simp [searchSong, deref_head, deref_zero, nextNodeOf_zero, searchLoop, hn2]
  | cons x pre =>
    have hx : x.songName ≠ q := hpre x (by simp)
    have hloop := searchLoop_hit q nd post hnd pre [] x (x :: (pre ++ nd :: post)).length 1
      (x :: (pre ++ nd :: post)) rfl hx (fun z hz => hpre z (by simp [hz])) (by simp)
    have hnext : nextNodeOf (x :: (pre ++ nd :: post)) 0 = some 1 := by
      cases pre <;> simp [nextNodeOf]
    simp only [List.length_nil, Nat.zero_add] at hloop
    simp only [List.cons_append, searchSong, deref_head, hnext, hloop, deref_first_match]
    simp

/-- Function `searchSong` on a non-empty chain without a node named `q`. -/
theorem searchSong_no_match (q : CString) (l : Catalog) (hne : l ≠ [])
    (hl : ∀ y ∈ l, y.songName ≠ q) :
    searchSong l q = Except.ok [Output.songNameNotFound q] := by
  cases l with
  | nil => exact absurd rfl hne
  | cons x rest =>
    have hx : x.songName ≠ q := hl x (by simp)
    have hx2 : ¬ strcmp x.songName q = 0 := fun h => hx ((strcmp_eq_zero_iff _ _).1 h)
    cases rest with
    | nil => simp [searchSong, deref_head, nextNodeOf_single, searchLoop, hx2]
    | cons y r =>
      have hloop := searchLoop_miss q (y :: r) [] x (x :: y :: r).length 1 (x :: y :: r) rfl hx
        (fun z hz => hl z (by simp [hz])) (by simp)
      simp only [List.length_nil, Nat.zero_add] at hloop
      simp only [searchSong, deref_head, nextNodeOf_zero, hloop]
      simp

/-- Function `rawSearchSong` on a chain whose first node named `q` is `nd`: it returns
that node, and stores its predecessor (`NULL` for the head). -/
theorem rawSearchSong_first_match (q : CString) (pre : List Node) (nd : Node)
    (post : List Node) (hpre : ∀ y ∈ pre, y.songName ≠ q) (hnd : nd.songName = q) :
    rawSearchSong (pre ++ nd :: post) q =
      Except.ok (some pre.length, if pre.length = 0 then none else some (pre.length - 1)) := by
  have hn2 : strcmp nd.songName q = 0 := (strcmp_eq_zero_iff _ _).2 hnd
  cases pre with
  | nil =>
    cases post with
    | nil =>
      simp [rawSearchSong, deref_head, nextNodeOf_single, rawSearchLoop, hn2]
    | cons y r =>
      simp [rawSearchSong, deref_head, deref_zero, nextNodeOf_zero, rawSearchLoop, hn2]
  | cons x pre =>
    have hx : x.songName ≠ q := hpre x (by simp)
    have hloop := rawSearchLoop_hit q nd post hnd pre [] x (x :: (pre ++ nd :: post)).length 1
      none (x :: (pre ++ nd :: post)) rfl hx (fun z hz => hpre z (by simp [hz]))
      (by simp)
    have hnext : nextNodeOf (x :: (pre ++ nd :: post)) 0 = some 1 := by
      cases pre <;> simp [nextNodeOf]
    simp only [List.length_nil, Nat.zero_add] at hloop
    simp only [List.cons_append, rawSearchSong, deref_head, hnext, hloop]
    simp

/-- Function `rawSearchSong` on a non-empty chain without a node named `q`. -/
theorem rawSearchSong_no_match (q : CString) (l : Catalog) (hne : l ≠ [])
    (hl : ∀ y ∈ l, y.songName ≠ q) :
    rawSearchSong l q = Except.ok (none, none) := by
  cases l with
  | nil => exact absurd rfl hne
  | cons x rest =>
    have hx : x.songName ≠ q := hl x (by simp)
    have hx2 : ¬ strcmp x.songName q = 0 := fun h => hx ((strcmp_eq_zero_iff _ _).1 h)
    cases rest with
    | nil => simp [rawSearchSong, deref_head, nextNodeOf_single, rawSearchLoop, hx2]
    | cons y r =>
      have hloop := rawSearchLoop_miss q (y :: r) [] x (x :: y :: r).length 1 none
        (x :: y :: r) rfl hx (fun z hz => hl z (by simp [hz])) (by simp)
      simp only [List.length_nil, Nat.zero_add] at hloop
      simp only [rawSearchSong, deref_head, nextNodeOf_zero, hloop]
      simp

/-- Function `songExists` on a chain that has a node named `q`. -/
theorem songExists_of_match (q : CString) (pre : List Node) (nd : Node) (post : List Node)
    (hpre : ∀ y ∈ pre, y.songName ≠ q) (hnd : nd.songName = q) :
    songExists (pre ++ nd :: post) q = Except.ok true := by
  have hn2 : strcmp nd.songName q = 0 := (strcmp_eq_zero_iff _ _).2 hnd
  cases pre with
  | nil =>
    cases post with
    | nil =>
      simp [songExists, deref_head, nextNodeOf_single, existsLoop, hn2]
    | cons y r =>
      simp [songExists, deref_head, deref_zero, nextNodeOf_zero, existsLoop, hn2]
  | cons x pre =>
    have hx : x.songName ≠ q := hpre x (by simp)
    have hloop := existsLoop_hit q nd post hnd pre [] x (x :: (pre ++ nd :: post)).length 1
      (x :: (pre ++ nd :: post)) rfl hx (fun z hz => hpre z (by simp [hz])) (by simp)
    have hnext : nextNodeOf (x :: (pre ++ nd :: post)) 0 = some 1 := by
      cases pre <;> simp [nextNodeOf]
    simp only [List.length_nil, Nat.zero_add] at hloop
    simp only [List.cons_append, songExists, deref_head, hnext, hloop]
    simp

/-- Function `songExists` on a non-empty chain without a node named `q`. -/
theorem songExists_no_match (q : CString) (l : Catalog) (hne : l ≠ [])
    (hl : ∀ y ∈ l, y.songName ≠ q) :
    songExists l q = Except.ok false := by
  cases l with
  | nil => exact absurd rfl hne
  | cons x rest =>
    have hx : x.songName ≠ q := hl x (by simp)
    have hx2 : ¬ strcmp x.songName q = 0 := fun h => hx ((strcmp_eq_zero_iff _ _).1 h)
    cases rest with
    | nil => simp [songExists, deref_head, nextNodeOf_single, existsLoop, hx2]
    | cons y r =>
      have hloop := existsLoop_miss q (y :: r) [] x (x :: y :: r).length 1 (x :: y :: r) rfl hx
        (fun z hz => hl z (by simp [hz])) (by simp)
      simp only [List.length_nil, Nat.zero_add] at hloop
      simp only [songExists, deref_head, nextNodeOf_zero, hloop]
      simp

/-! ## Deletion -/

theorem rawDeleteSong_first_match (q : CString) (pre : List Node) (nd : Node)
    (post : List Node) (hpre : ∀ y ∈ pre, y.songName ≠ q) (hnd : nd.songName = q) :
    rawDeleteSong (pre ++ nd :: post) q = Except.ok (true, pre ++ post) := by
  have h := rawSearchSong_first_match q pre nd post hpre hnd
  cases pre with
  | nil =>
    simp only [List.length_nil, if_true] at h
    simp only [rawDeleteSong, h]
    simp
  | cons x pre =>
    have e : ¬ (x :: pre).length = 0 := by simp
    simp only [e, if_false] at h
    simp only [rawDeleteSong, h]
    have e2 : (x :: pre).length - 1 + 1 = (x :: pre).length := by simp
    have hd : List.drop ((x :: pre).length + 1) ((x :: pre) ++ nd :: post) = post := by
      rw [List.drop_append]
      rfl
    rw [e2, List.take_left, hd]

theorem deleteSong_first_match (q : CString) (pre : List Node) (nd : Node) (post : List Node)
    (hpre : ∀ y ∈ pre, y.songName ≠ q) (hnd : nd.songName = q) :
    deleteSong (pre ++ nd :: post) q = Except.ok ([Output.songNameDeleted q], pre ++ post) := by
  simp only [deleteSong, songExists_of_match q pre nd post hpre hnd,
    rawDeleteSong_first_match q pre nd post hpre hnd]

theorem deleteSong_no_match (q : CString) (l : Catalog) (hne : l ≠ [])
    (hl : ∀ y ∈ l, y.songName ≠ q) :
    deleteSong l q = Except.ok ([Output.songNameNotFound q], l) := by
  simp only [deleteSong, songExists_no_match q l hne hl]

/-! ## The loop of `insertSong` -/

/-- Started with `previousNode == nextNode`, the loop runs over the nodes that compare
smaller than `name` and stops on the first one that does not, with both pointers on it. -/
theorem insertLoop_stop (name : CString) (z : Node) (post : List Node)
    (hz : ¬ strcmp name z.songName > 0) :
    ∀ (seg front : List Node) (fuel : Nat) (l : Catalog),
      l = front ++ (seg ++ z :: post) → (∀ y ∈ seg, strcmp name y.songName > 0) →
      seg.length ≤ fuel →
      insertLoop l name fuel front.length (some front.length) =
        Except.ok (front.length + seg.length, some (front.length + seg.length)) := by
  intro seg
  induction seg with
  | nil =>
    intro front fuel l hl _ _
    subst hl
    cases fuel <;>
      simp only [List.nil_append, insertLoop, deref_at, hz, if_false, List.length_nil,
        Nat.add_zero]
  | cons y seg ih =>
    intro front fuel l hl hseg hf
    obtain ⟨f, rfl⟩ : ∃ f, fuel = f + 1 := ⟨fuel - 1, by simp at hf; omega⟩
    have hy : strcmp name y.songName > 0 := hseg y (by simp)
    have step := ih (front ++ [y]) f l (by simp [hl]) (fun w hw => hseg w (by simp [hw]))
      (by simp at hf; omega)
    have hnext : nextNodeOf l front.length = some (front.length + 1) := by
      subst hl
      cases seg <;> simp [nextNodeOf]
    have hd : deref l (some front.length) = Except.ok y := by
      subst hl
      exact deref_at front y (seg ++ z :: post)
    simp only [insertLoop, hd, hy, if_true, hnext]
    simp only [List.length_append, List.length_singleton] at step
    rw [step]
    simp only [List.length_cons]
    have e : front.length + 1 + seg.length = front.length + (seg.length + 1) := by omega
    rw [e]

/-- Started with `previousNode == nextNode`, when every node from there on compares
smaller than `name`, the loop ends at the last node with `nextNode == NULL`. -/
theorem insertLoop_end (name : CString) :
    ∀ (seg front : List Node) (y : Node) (fuel : Nat) (l : Catalog),
      l = front ++ y :: seg → (∀ w ∈ y :: seg, strcmp name w.songName > 0) →
      seg.length + 1 ≤ fuel →
      insertLoop l name fuel front.length (some front.length) =
        Except.ok (front.length + seg.length, none) := by
  intro seg
  induction seg with
  | nil =>
    intro front y fuel l hl hseg hf
    obtain ⟨f, rfl⟩ : ∃ f, fuel = f + 1 := ⟨fuel - 1, by simp at hf; omega⟩
    have hy : strcmp name y.songName > 0 := hseg y (by simp)
    subst hl
    simp only [insertLoop, deref_at, hy, if_true, nextNodeOf_last, List.length_nil,
      Nat.add_zero]
  | cons w seg ih =>
    intro front y fuel l hl hseg hf
    obtain ⟨f, rfl⟩ : ∃ f, fuel = f + 1 := ⟨fuel - 1, by simp at hf; omega⟩
    have hy : strcmp name y.songName > 0 := hseg y (by simp)
    have step := ih (front ++ [y]) w f l (by simp [hl]) (fun v hv => hseg v (by simp [hv]))
      (by simp at hf; omega)
    subst hl
    simp only [insertLoop, deref_at, hy, if_true, nextNodeOf_at]
    simp only [List.length_append, List.length_singleton] at step
    rw [step]
    simp only [List.length_cons]
    have e : front.length + 1 + seg.length = front.length + (seg.length + 1) := by omega
    rw [e]

/-! ## Function `insertSong`, case by case -/

theorem copyString_of_fits {x : CString} (h : fits x) : copyString x = Except.ok x := by
  simp [copyString, h]

theorem copyString_of_not_fits {x : CString} (h : ¬ fits x) :
    copyString x = Except.error Fault.blockOverrun := by
  simp [copyString, h]

/-- When the three strings fit their blocks, `rawInsertSong` with `previousNode == NULL`
gives a node of its own that holds them. -/
theorem rawInsertSong_null (name artist genre : CString) (l : Catalog)
    (hfit : allFit name artist genre) :
    rawInsertSong name artist genre l none =
      Except.ok [{ artist := artist, songName := name, genre := genre }] := by
  simp only [rawInsertSong, copyString_of_fits hfit.1, copyString_of_fits hfit.2.1,
    copyString_of_fits hfit.2.2]

/-- When the three strings fit their blocks, `rawInsertSong` links a node that holds them
in right after `previousNode`. -/
theorem rawInsertSong_after (name artist genre : CString) (l : Catalog) (p : Nat)
    (hfit : allFit name artist genre) :
    rawInsertSong name artist genre l (some p) =
      Except.ok (l.take (p + 1) ++
        { artist := artist, songName := name, genre := genre } :: l.drop (p + 1)) := by
  simp only [rawInsertSong, copyString_of_fits hfit.1, copyString_of_fits hfit.2.1,
    copyString_of_fits hfit.2.2]

/-- When one of the three strings does not fit its block, `rawInsertSong` writes past
that block. -/
theorem rawInsertSong_overrun (name artist genre : CString) (l : Catalog) (p : Ptr)
    (hfit : ¬ allFit name artist genre) :
    rawInsertSong name artist genre l p = Except.error Fault.blockOverrun := by
  by_cases hn : fits name
  · by_cases ha : fits artist
    · have hg : ¬ fits genre := fun hg => hfit ⟨hn, ha, hg⟩
      simp only [rawInsertSong, copyString_of_fits hn, copyString_of_fits ha,
        copyString_of_not_fits hg]
    · simp only [rawInsertSong, copyString_of_fits hn, copyString_of_not_fits ha]
  · simp only [rawInsertSong, copyString_of_not_fits hn]

theorem insertSong_nil (name artist genre : CString) (hfit : allFit name artist genre) :
    insertSong name artist genre [] =
      Except.ok ([], [{ artist := artist, songName := name, genre := genre }]) := by
  simp [insertSong, rawInsertSong_null name artist genre [] hfit]

theorem insertSong_before_head (name artist genre : CString) (h : Node) (rest : List Node)
    (hh : strcmp name h.songName < 0) (hfit : allFit name artist genre) :
    insertSong name artist genre (h :: rest) =
      Except.ok ([], { artist := artist, songName := name, genre := genre } :: h :: rest) := by
  simp [insertSong, rawInsertSong_null name artist genre _ hfit, hh]

theorem insertSong_dup_head (name artist genre : CString) (h : Node) (rest : List Node)
    (hh : h.songName = name) :
    insertSong name artist genre (h :: rest) =
      Except.ok ([Output.songNameDuplicate name], h :: rest) := by
  have h0 : strcmp name h.songName = 0 := (strcmp_eq_zero_iff _ _).2 hh.symm
  simp [insertSong, h0]

theorem insertSong_single (name artist genre : CString) (h : Node)
    (hh : strcmp name h.songName > 0) (hfit : allFit name artist genre) :
    insertSong name artist genre [h] =
      Except.ok ([], [h, { artist := artist, songName := name, genre := genre }]) := by
  have h1 : ¬ strcmp name h.songName < 0 := by omega
  have h2 : ¬ strcmp name h.songName = 0 := by omega
  simp [insertSong, rawInsertSong_after name artist genre _ _ hfit, h1, h2, nextNodeOf_single,
    insertLoop]

/-- The loop does not run: the second node does not compare smaller than `name`.  Either
that node carries `name`, or the new strings fit their blocks. -/
theorem insertSong_second (name artist genre : CString) (h z : Node) (post : List Node)
    (hh : strcmp name h.songName > 0) (hz : ¬ strcmp name z.songName > 0)
    (hcase : z.songName = name ∨ allFit name artist genre) :
    insertSong name artist genre (h :: z :: post) =
      if z.songName = name then
        Except.ok ([Output.songNameDuplicate name], h :: z :: post)
      else
        Except.ok ([],
          h :: { artist := artist, songName := name, genre := genre } :: z :: post) := by
  have h1 : ¬ strcmp name h.songName < 0 := by omega
  have h2 : ¬ strcmp name h.songName = 0 := by omega
  have hd : deref (h :: z :: post) (some 1) = Except.ok z := deref_at [h] z post
  have hloop : insertLoop (h :: z :: post) name (h :: z :: post).length 0 (some 1) =
      Except.ok (0, some 1) := by
    simp only [List.length_cons, insertLoop, hd, hz, if_false]
  simp only [insertSong, h1, h2, if_false, nextNodeOf_zero, hloop, hd]
  by_cases e : z.songName = name
  · have e2 : strcmp z.songName name = 0 := (strcmp_eq_zero_iff _ _).2 e
    simp [e, e2, strcmp_self]
  · have e2 : ¬ strcmp z.songName name = 0 := fun h => e ((strcmp_eq_zero_iff _ _).1 h)
    have hfit : allFit name artist genre := hcase.resolve_left e
    simp [e, e2, rawInsertSong_after name artist genre _ _ hfit]

/-- The first execution of the loop body, entered because the second node compares
smaller than `name`: both pointers move to the second node. -/
theorem insertLoop_first (name : CString) (h y : Node) (rest : List Node)
    (hy : strcmp name y.songName > 0) :
    insertLoop (h :: y :: rest) name (h :: y :: rest).length 0 (some 1) =
      insertLoop (h :: y :: rest) name (y :: rest).length 1 (some 1) := by
  have hd : deref (h :: y :: rest) (some 1) = Except.ok y := deref_at [h] y rest
  have e : (h :: y :: rest).length = (y :: rest).length + 1 := rfl
  rw [e, insertLoop.eq_3]
  simp only [hd, hy, if_true, deref_zero, nextNodeOf_zero]

/-- The loop ran and stopped on a node `z` that does not compare smaller than `name`:
unless `z` carries `name`, the new node is linked in after `z`.  Either `z` carries
`name`, or the new strings fit their blocks. -/
theorem insertSong_after (name artist genre : CString) (h y : Node) (seg : List Node)
    (z : Node) (post : List Node) (hh : strcmp name h.songName > 0)
    (hseg : ∀ w ∈ y :: seg, strcmp name w.songName > 0) (hz : ¬ strcmp name z.songName > 0)
    (hcase : z.songName = name ∨ allFit name artist genre) :
    insertSong name artist genre (h :: (y :: seg ++ z :: post)) =
      if z.songName = name then
        Except.ok ([Output.songNameDuplicate name], h :: (y :: seg ++ z :: post))
      else
        Except.ok ([], h :: (y :: seg ++
          z :: { artist := artist, songName := name, genre := genre } :: post)) := by
  have h1 : ¬ strcmp name h.songName < 0 := by omega
  have h2 : ¬ strcmp name h.songName = 0 := by omega
  have hy : strcmp name y.songName > 0 := hseg y (by simp)
  have hfirst := insertLoop_first name h y (seg ++ z :: post) hy
  have hstop := insertLoop_stop name z post hz (y :: seg) [h] (y :: (seg ++ z :: post)).length
    (h :: (y :: seg ++ z :: post)) rfl hseg (by simp)
  simp only [List.length_singleton] at hstop
  have hd : deref (h :: (y :: seg ++ z :: post)) (some (1 + (y :: seg).length)) =
      Except.ok z := by
    have := deref_at (h :: y :: seg) z post
    simpa [Nat.add_comm] using this
  have hnext : nextNodeOf (h :: (y :: seg ++ z :: post)) 0 = some 1 := nextNodeOf_zero _ _ _
  simp only [insertSong, h1, h2, if_false]
  rw [hnext]
  simp only [List.cons_append] at hfirst hstop hd ⊢
  rw [hfirst, hstop]
  simp only [hd]
  by_cases e : z.songName = name
  · have e2 : strcmp z.songName name = 0 := (strcmp_eq_zero_iff _ _).2 e
    simp [e, e2, strcmp_self]
  · have e2 : ¬ strcmp z.songName name = 0 := fun h => e ((strcmp_eq_zero_iff _ _).1 h)
    have ht : List.take (1 + (seg.length + 1) + 1) (h :: y :: (seg ++ z :: post)) =
        h :: y :: (seg ++ [z]) := by
      have := List.take_left (h :: y :: (seg ++ [z])) post
      simpa [Nat.add_comm, Nat.add_left_comm] using this
    have hdr : List.drop (1 + (seg.length + 1) + 1) (h :: y :: (seg ++ z :: post)) = post := by
      simp [Nat.add_comm, Nat.add_left_comm]
    have hfit : allFit name artist genre := hcase.resolve_left e
    simp only [e, e2, rawInsertSong_after name artist genre _ _ hfit, List.length_cons, ne_eq,
      not_false_eq_true, if_true, if_false, ht, hdr]
    simp

/-- The loop ran to the end of the chain: the new node becomes the last one. -/
theorem insertSong_end (name artist genre : CString) (h y : Node) (seg : List Node)
    (hh : strcmp name h.songName > 0)
    (hseg : ∀ w ∈ y :: seg, strcmp name w.songName > 0) (hfit : allFit name artist genre) :
    insertSong name artist genre (h :: y :: seg) =
      Except.ok ([], h :: y :: seg ++
        [{ artist := artist, songName := name, genre := genre }]) := by
  have h1 : ¬ strcmp name h.songName < 0 := by omega
  have h2 : ¬ strcmp name h.songName = 0 := by omega
  have hy : strcmp name y.songName > 0 := hseg y (by simp)
  have hfirst := insertLoop_first name h y seg hy
  have hend := insertLoop_end name seg [h] y (y :: seg).length (h :: y :: seg) rfl hseg
    (by simp)
  simp only [List.length_singleton] at hend
  simp only [insertSong, h1, h2, if_false, nextNodeOf_zero]
  rw [hfirst, hend]
  have ht : List.take (1 + seg.length + 1) (h :: y :: seg) = h :: y :: seg := by
    apply List.take_of_length_le
    simp; omega
  have hdr : List.drop (1 + seg.length + 1) (h :: y :: seg) = [] := by
    apply List.drop_of_length_le
    simp; omega
  simp only [rawInsertSong_after name artist genre _ _ hfit, ht, hdr]

/-! ## Function `insertSong` on a chain that lacks the name, and on an ascending chain -/

/-- When no node carries `name`, `insertSong` prints nothing and links one new node in
somewhere, the old nodes staying as they were. -/
theorem insertSong_of_absent (name artist genre : CString) (l : Catalog)
    (habs : ∀ y ∈ l, y.songName ≠ name) (hfit : allFit name artist genre) :
    ∃ pre post, l = pre ++ post ∧
      insertSong name artist genre l =
        Except.ok ([], pre ++ { artist := artist, songName := name, genre := genre } :: post) := by
  cases l with
  | nil => exact ⟨[], [], rfl, insertSong_nil name artist genre hfit⟩
  | cons h rest =>
    have hne : h.songName ≠ name := habs h (by simp)
    have h0 : ¬ strcmp name h.songName = 0 := fun e => hne ((strcmp_eq_zero_iff _ _).1 e).symm
    by_cases hlt : strcmp name h.songName < 0
    · exact ⟨[], h :: rest, rfl, insertSong_before_head name artist genre h rest hlt hfit⟩
    · have hh : strcmp name h.songName > 0 := by omega
      cases rest with
      | nil => exact ⟨[h], [], rfl, insertSong_single name artist genre h hh hfit⟩
      | cons y r =>
        have hyn : y.songName ≠ name := habs y (by simp)
        by_cases hy : strcmp name y.songName > 0
        · rcases split_at_first_not (fun w : Node => strcmp name w.songName > 0) r with
            hall | ⟨seg, z, post, hr, hseg, hz⟩
          · refine ⟨h :: y :: r, [], by simp, ?_⟩
            have := insertSong_end name artist genre h y r hh (by
              intro w hw
              rcases List.mem_cons.1 hw with e | e
              · exact e ▸ hy
              · exact hall w e) hfit
            simpa using this
          · subst hr
            have hzn : z.songName ≠ name := habs z (by simp)
            have := insertSong_after name artist genre h y seg z post hh (by
              intro w hw
              rcases List.mem_cons.1 hw with e | e
              · exact e ▸ hy
              · exact hseg w e) hz (Or.inr hfit)
            simp only [hzn, if_false] at this
            exact ⟨h :: y :: seg ++ [z], post, by simp, by simpa using this⟩
        · have := insertSong_second name artist genre h y r hh hy (Or.inr hfit)
          simp only [hyn, if_false] at this
          exact ⟨[h], y :: r, rfl, this⟩

theorem strictAscending_pairwise {l : Catalog} (h : StrictAscending l) :
    l.Pairwise (fun a b => strcmp a.songName b.songName < 0) := by
  haveI : IsTrans Node (fun a b => strcmp a.songName b.songName < 0) :=
    ⟨fun _ _ _ h1 h2 => strcmp_neg_trans h1 h2⟩
  apply List.chain'_iff_pairwise.1
  induction l with
  | nil => exact List.chain'_nil
  | cons a l ih =>
    cases l with
    | nil => exact List.chain'_singleton a
    | cons b rest =>
      simp only [StrictAscending] at h
      exact List.chain'_cons.2 ⟨h.1, ih h.2⟩

/-- On an ascending chain, `insertSong` of a name that some node carries prints the
duplicate message and leaves the chain as it was. -/
theorem insertSong_dup_of_ascending (name artist genre : CString) (l : Catalog)
    (hs : StrictAscending l) (hmem : ∃ x ∈ l, x.songName = name) :
    insertSong name artist genre l = Except.ok ([Output.songNameDuplicate name], l) := by
  obtain ⟨x, hx, hxn⟩ := hmem
  have hp := strictAscending_pairwise hs
  cases l with
  | nil => simp at hx
  | cons h rest =>
    by_cases hh0 : h.songName = name
    · exact insertSong_dup_head name artist genre h rest hh0
    · have hxr : x ∈ rest := by
        rcases List.mem_cons.1 hx with e | e
        · exact absurd (e ▸ hxn) hh0
        · exact e
      rw [List.pairwise_cons] at hp
      have hh : strcmp name h.songName > 0 := by
        have := hp.1 x hxr
        rw [hxn] at this
        exact (strcmp_pos_iff_swap_neg _ _).2 this
      obtain ⟨seg, post, hr⟩ := List.append_of_mem hxr
      subst hr
      have hseg : ∀ w ∈ seg, strcmp name w.songName > 0 := by
        intro w hw
        have h2 := (List.pairwise_append.1 hp.2).2.2 w hw x (by simp)
        rw [hxn] at h2
        exact (strcmp_pos_iff_swap_neg _ _).2 h2
      have hz : ¬ strcmp name x.songName > 0 := by
        rw [hxn, strcmp_self]
        decide
      cases seg with
      | nil =>
        have := insertSong_second name artist genre h x post hh hz (Or.inl hxn)
        simpa [hxn] using this
      | cons y seg =>
        have := insertSong_after name artist genre h y seg x post hh hseg hz (Or.inl hxn)
        simpa [hxn] using this

theorem mem_songNames {name : CString} {l : Catalog} :
    name ∈ songNames l ↔ ∃ x ∈ l, x.songName = name := by
  simp [songNames]

theorem not_mem_songNames {name : CString} {l : Catalog} :
    name ∉ songNames l ↔ ∀ y ∈ l, y.songName ≠ name := by
  simp [songNames]

/-- A chain that holds `name` splits at the first node that carries it. -/
theorem split_at_first_named {name : CString} {l : Catalog} (h : name ∈ songNames l) :
    ∃ pre nd post, l = pre ++ nd :: post ∧ (∀ y ∈ pre, y.songName ≠ name) ∧
      nd.songName = name := by
  rcases split_at_first_not (fun w : Node => w.songName ≠ name) l with hall | ⟨pre, nd, post, h1, h2, h3⟩
  · obtain ⟨x, hx, hxn⟩ := mem_songNames.1 h
    exact absurd hxn (hall x hx)
  · exact ⟨pre, nd, post, h1, h2, not_not.1 h3⟩

/-! ## The claims -/

/-- C1 (the code departs from it): inserting "A", "B", "D" and then "C" into the empty
chain gives a reachable chain whose entries stand in the order A, B, D, C, which is not
ascending by song name, and `printList` emits them in that order. -/
theorem reachable_chain_not_ascending :
    Reachable [songA, songB, songD, songC] ∧
      insertSong [67] [122] [114] [songA, songB, songD] =
        Except.ok ([], [songA, songB, songD, songC]) ∧
      printList [songA, songB, songD, songC] =
        Except.ok [Output.printMusicLibraryTitle, Output.printNodeContents songA,
          Output.printNodeContents songB, Output.printNodeContents songD,
          Output.printNodeContents songC] ∧
      ¬ StrictAscending [songA, songB, songD, songC] := by
  refine ⟨?_, rfl, rfl, by decide⟩
  have h1 : Reachable [songA] := Reachable.insert [65] [120] [114] Reachable.empty rfl
  have h2 : Reachable [songA, songB] := Reachable.insert [66] [121] [114] h1 rfl
  have h3 : Reachable [songA, songB, songD] := Reachable.insert [68] [118] [114] h2 rfl
  exact Reachable.insert [67] [122] [114] h3 rfl

/-- C2 (the code departs from it): on the reachable chain A, B, D the song "C" is inserted
after "D"; a second insert of the name "C" then prints no duplicate message and adds a
second entry named "C", so the chain grows from four entries to five and a reachable chain
holds the name "C" twice. -/
theorem second_insert_not_rejected :
    Reachable [songA, songB, songD] ∧
      insertSong [67] [122] [114] [songA, songB, songD] =
        Except.ok ([], [songA, songB, songD, songC]) ∧
      insertSong [67] [119] [112] [songA, songB, songD, songC] =
        Except.ok ([], [songA, songB, songD, songC2, songC]) ∧
      Reachable [songA, songB, songD, songC2, songC] ∧
      ¬ (songNames [songA, songB, songD, songC2, songC]).Nodup := by
  have h1 : Reachable [songA] := Reachable.insert [65] [120] [114] Reachable.empty rfl
  have h2 : Reachable [songA, songB] := Reachable.insert [66] [121] [114] h1 rfl
  have h3 : Reachable [songA, songB, songD] := Reachable.insert [68] [118] [114] h2 rfl
  have h4 : Reachable [songA, songB, songD, songC] := Reachable.insert [67] [122] [114] h3 rfl
  have h5 : Reachable [songA, songB, songD, songC2, songC] :=
    Reachable.insert [67] [119] [112] h4 rfl
  exact ⟨h3, rfl, rfl, h5, by decide⟩

/-- C3 (the code departs from it): the chain A, B, D is strictly ascending and has no
entry named "C", and `insertSong` puts "C" after "D", the first entry with a greater
name, not before it. -/
theorem insert_placed_after_greater :
    StrictAscending [songA, songB, songD] ∧ [67] ∉ songNames [songA, songB, songD] ∧
      insertSong [67] [122] [114] [songA, songB, songD] =
        Except.ok ([], [songA, songB, songD, songC]) ∧
      insertSong [67] [122] [114] [songA, songB, songD] ≠
        Except.ok ([], [songA, songB, songC, songD]) := by
  refine ⟨by decide, by decide, rfl, ?_⟩
  intro h
  have h2 : ([songA, songB, songD, songC] : Catalog) = [songA, songB, songC, songD] := by
    injection (show Except.ok (([] : List Output), [songA, songB, songD, songC]) =
      Except.ok (([] : List Output), [songA, songB, songC, songD]) from h) with h3
    exact (Prod.mk.inj h3).2
  exact absurd h2 (by decide)

/-- C4: on a strictly ascending chain that holds an entry named `name`, `insertSong`
of that name with any artist and genre prints the duplicate message and leaves the chain
exactly as it was. -/
theorem insertSong_duplicate_rejected (name artist genre : CString) (l : Catalog)
    (hs : StrictAscending l) (hmem : name ∈ songNames l) :
    insertSong name artist genre l = Except.ok ([Output.songNameDuplicate name], l) :=
  insertSong_dup_of_ascending name artist genre l hs (mem_songNames.1 hmem)

theorem insertSong_duplicate_rejected_witness :
    StrictAscending [songA, songB, songD] ∧ [68] ∈ songNames [songA, songB, songD] ∧
      insertSong [68] [119] [112] [songA, songB, songD] =
        Except.ok ([Output.songNameDuplicate [68]], [songA, songB, songD]) :=
  ⟨by decide, by decide,
    insertSong_duplicate_rejected [68] [119] [112] [songA, songB, songD] (by decide)
      (by decide)⟩

/-- For strings that fit their blocks: on any chain (ascending or not, empty or not)
without an entry named `name`, `insertSong` prints nothing, and on the chain it leaves both
`searchSong` and `rawSearchSong` find the name, the entry found holding exactly the name,
artist and genre that were inserted. -/
theorem insert_then_search_finds_of_fit (name artist genre : CString) (l : Catalog)
    (habs : name ∉ songNames l) (hfit : allFit name artist genre) :
    ∃ l2, insertSong name artist genre l = Except.ok ([], l2) ∧
      searchSong l2 name =
        Except.ok [Output.songNameFound name,
          Output.printNodeContents { artist := artist, songName := name, genre := genre }] ∧
      ∃ i before, rawSearchSong l2 name = Except.ok (some i, before) ∧
        deref l2 (some i) =
          Except.ok { artist := artist, songName := name, genre := genre } := by
  obtain ⟨pre, post, hl, hins⟩ :=
    insertSong_of_absent name artist genre l (not_mem_songNames.1 habs) hfit
  have hpre : ∀ y ∈ pre, y.songName ≠ name := by
    intro y hy
    exact not_mem_songNames.1 habs y (by rw [hl]; exact List.mem_append_left _ hy)
  refine ⟨_, hins, searchSong_first_match name pre _ post hpre rfl, pre.length, _,
    rawSearchSong_first_match name pre _ post hpre rfl, deref_at pre _ post⟩

theorem insert_then_search_finds_of_fit_witness :
    [67] ∉ songNames [songA, songB, songD] ∧ allFit [67] [122] [114] ∧
    ∃ l2, insertSong [67] [122] [114] [songA, songB, songD] = Except.ok ([], l2) ∧
      searchSong l2 [67] =
        Except.ok [Output.songNameFound [67],
          Output.printNodeContents { artist := [122], songName := [67], genre := [114] }] ∧
      ∃ i before, rawSearchSong l2 [67] = Except.ok (some i, before) ∧
        deref l2 (some i) =
          Except.ok { artist := [122], songName := [67], genre := [114] } :=
  ⟨by decide, by decide,
    insert_then_search_finds_of_fit [67] [122] [114] [songA, songB, songD] (by decide)
      (by decide)⟩

/-- C5 (the code departs from it): `rawInsertSong` asks `malloc` for `strlen(name)` bytes
and `strcpy` writes one byte more.  For the 24-byte name `longName`, absent from the empty
chain, the terminator goes past the block, so `insertSong` does not leave a chain on which
the name is found with exactly the strings given.  Where the byte after the block then
reads 33 (the character !), the chain holds the name followed by that byte, and
`searchSong` and `rawSearchSong` for the name report it not found. -/
theorem insert_long_name_not_found :
    longName ∉ songNames [] ∧ ¬ fits longName ∧
      insertSong longName [120] [114] [] = Except.error Fault.blockOverrun ∧
      searchSong [{ artist := [120], songName := longName ++ [33], genre := [114] }] longName =
        Except.ok [Output.songNameNotFound longName] ∧
      rawSearchSong [{ artist := [120], songName := longName ++ [33], genre := [114] }]
        longName = Except.ok (none, none) := by
  refine ⟨by decide, by decide, rfl, rfl, rfl⟩

/-- C6: on a non-empty chain `searchSong` prints the found message and the contents of the
first entry, in list order, whose name is the query, and prints the not-found message when no
entry has that name.  In particular the only entry of a one-entry chain is found, and a
query for the name of the last entry is reported found.  (The function has no access to
`headOfList` and stores nothing, so the chain stays as it is.) -/
theorem searchSong_finds_first_match (l : Catalog) (q : CString) (hne : l ≠ []) :
    searchSong l q =
        Except.ok
          (match l.find? (fun nd => decide (nd.songName = q)) with
           | some nd => [Output.songNameFound q, Output.printNodeContents nd]
           | none => [Output.songNameNotFound q]) ∧
      (∀ nd, l = [nd] → nd.songName = q →
        searchSong l q = Except.ok [Output.songNameFound q, Output.printNodeContents nd]) ∧
      (∀ nd, l.getLast? = some nd → nd.songName = q →
        ∃ nd2, nd2.songName = q ∧
          searchSong l q = Except.ok [Output.songNameFound q, Output.printNodeContents nd2]) := by
  refine ⟨?_, ?_, ?_⟩
  · cases hfind : l.find? (fun nd => decide (nd.songName = q)) with
    | none =>
      have hall : ∀ y ∈ l, y.songName ≠ q := by
        intro y hy
        have := (List.find?_eq_none.1 hfind) y hy
        simpa using this
      exact searchSong_no_match q l hne hall
    | some nd =>
      obtain ⟨hnd, pre, post, hl, hpre⟩ := List.find?_eq_some.1 hfind
      have hnd2 : nd.songName = q := by simpa using hnd
      have hpre2 : ∀ y ∈ pre, y.songName ≠ q := by
        intro y hy
        have := hpre y hy
        simpa using this
      rw [hl]
      exact searchSong_first_match q pre nd post hpre2 hnd2
  · intro nd hl hnd
    rw [hl]
    exact searchSong_first_match q [] nd [] (by simp) hnd
  · intro nd hlast hnd
    have hmem : q ∈ songNames l :=
      mem_songNames.2 ⟨nd, List.mem_of_getLast?_eq_some hlast, hnd⟩
    obtain ⟨pre, nd2, post, hl, hpre, hnd2⟩ := split_at_first_named hmem
    refine ⟨nd2, hnd2, ?_⟩
    rw [hl]
    exact searchSong_first_match q pre nd2 post hpre hnd2

theorem searchSong_finds_first_match_witness :
    ([songA, songB, songD, songC2, songC] : Catalog) ≠ [] ∧
    (searchSong [songA, songB, songD, songC2, songC] [67] =
        Except.ok
          (match List.find? (fun nd => decide (nd.songName = [67]))
              [songA, songB, songD, songC2, songC] with
           | some nd => [Output.songNameFound [67], Output.printNodeContents nd]
           | none => [Output.songNameNotFound [67]]) ∧
      (∀ nd, [songA, songB, songD, songC2, songC] = [nd] → nd.songName = [67] →
        searchSong [songA, songB, songD, songC2, songC] [67] =
          Except.ok [Output.songNameFound [67], Output.printNodeContents nd]) ∧
      (∀ nd, List.getLast? [songA, songB, songD, songC2, songC] = some nd →
        nd.songName = [67] →
        ∃ nd2, nd2.songName = [67] ∧
          searchSong [songA, songB, songD, songC2, songC] [67] =
            Except.ok [Output.songNameFound [67], Output.printNodeContents nd2])) :=
  ⟨by decide,
    searchSong_finds_first_match [songA, songB, songD, songC2, songC] [67] (by decide)⟩

/-- C7: on a chain that holds an entry named `name` (a one-entry chain, the head and the
last entry included) `deleteSong` prints the deleted message and leaves the chain without
the first entry of that name: the entries before it and after it are kept as they were, in
their order, so the chain is shorter by exactly one. -/
theorem deleteSong_removes_first_match (l : Catalog) (name : CString)
    (hmem : name ∈ songNames l) :
    ∃ pre nd post, l = pre ++ nd :: post ∧ name ∉ songNames pre ∧ nd.songName = name ∧
      deleteSong l name = Except.ok ([Output.songNameDeleted name], pre ++ post) ∧
      (pre ++ post).length + 1 = l.length := by
  obtain ⟨pre, nd, post, hl, hpre, hnd⟩ := split_at_first_named hmem
  refine ⟨pre, nd, post, hl, not_mem_songNames.2 hpre, hnd, ?_, ?_⟩
  · rw [hl]
    exact deleteSong_first_match name pre nd post hpre hnd
  · rw [hl]
    simp
    omega

theorem deleteSong_removes_first_match_witness :
    [67] ∈ songNames [songA, songB, songD, songC2, songC] ∧
    ∃ pre nd post, [songA, songB, songD, songC2, songC] = pre ++ nd :: post ∧
      [67] ∉ songNames pre ∧ nd.songName = [67] ∧
      deleteSong [songA, songB, songD, songC2, songC] [67] =
        Except.ok ([Output.songNameDeleted [67]], pre ++ post) ∧
      (pre ++ post).length + 1 = [songA, songB, songD, songC2, songC].length :=
  ⟨by decide,
    deleteSong_removes_first_match [songA, songB, songD, songC2, songC] [67] (by decide)⟩

/-- C8: on a non-empty chain without an entry named `name`, `deleteSong` prints the
not-found message and leaves the chain exactly as it was. -/
theorem deleteSong_absent_unchanged (l : Catalog) (name : CString) (hne : l ≠ [])
    (habs : name ∉ songNames l) :
    deleteSong l name = Except.ok ([Output.songNameNotFound name], l) :=
  deleteSong_no_match name l hne (not_mem_songNames.1 habs)

theorem deleteSong_absent_unchanged_witness :
    ([songA, songB, songD] : Catalog) ≠ [] ∧ [67] ∉ songNames [songA, songB, songD] ∧
    deleteSong [songA, songB, songD] [67] =
      Except.ok ([Output.songNameNotFound [67]], [songA, songB, songD]) :=
  ⟨by decide, by decide,
    deleteSong_absent_unchanged [songA, songB, songD] [67] (by decide) (by decide)⟩

/-- For strings that fit their blocks: on any chain (the empty one included) without an
entry named `name`, `insertSong` followed by `deleteSong` of that name prints the deleted
message and gives back exactly the chain from before the insert, which is one entry
shorter than the chain in between; when it is non-empty, `searchSong` of the name on it
prints the not-found message. -/
theorem insert_then_delete_restores_of_fit (name artist genre : CString) (l : Catalog)
    (habs : name ∉ songNames l) (hfit : allFit name artist genre) :
    ∃ l2, insertSong name artist genre l = Except.ok ([], l2) ∧
      l2.length = l.length + 1 ∧
      deleteSong l2 name = Except.ok ([Output.songNameDeleted name], l) ∧
      (l ≠ [] → searchSong l name = Except.ok [Output.songNameNotFound name]) := by
  obtain ⟨pre, post, hl, hins⟩ :=
    insertSong_of_absent name artist genre l (not_mem_songNames.1 habs) hfit
  have hpre : ∀ y ∈ pre, y.songName ≠ name := by
    intro y hy
    exact not_mem_songNames.1 habs y (by rw [hl]; exact List.mem_append_left _ hy)
  refine ⟨_, hins, by simp [hl]; omega, ?_, ?_⟩
  · rw [hl]
    exact deleteSong_first_match name pre _ post hpre rfl
  · intro hne
    exact searchSong_no_match name l hne (not_mem_songNames.1 habs)

theorem insert_then_delete_restores_of_fit_witness :
    [67] ∉ songNames [songA, songB, songD] ∧ allFit [67] [122] [114] ∧
    ∃ l2, insertSong [67] [122] [114] [songA, songB, songD] = Except.ok ([], l2) ∧
      l2.length = [songA, songB, songD].length + 1 ∧
      deleteSong l2 [67] = Except.ok ([Output.songNameDeleted [67]], [songA, songB, songD]) ∧
      (([songA, songB, songD] : Catalog) ≠ [] →
        searchSong [songA, songB, songD] [67] = Except.ok [Output.songNameNotFound [67]]) :=
  ⟨by decide, by decide,
    insert_then_delete_restores_of_fit [67] [122] [114] [songA, songB, songD] (by decide)
      (by decide)⟩

/-- C9 (the code departs from it): for the 24-byte name `longName`, absent from the chain
that holds "A", the terminator that `strcpy` writes goes past the block of 24 bytes, so
`insertSong` followed by `deleteSong` does not give back the chain from before.  Where the
byte after the block then reads 33 (the character !), the chain holds the name followed
by that byte after "A", and `deleteSong` of the name prints the not-found message and
leaves that node in the chain. -/
theorem insert_long_name_not_deleted :
    longName ∉ songNames [songA] ∧ ¬ fits longName ∧
      insertSong longName [120] [114] [songA] = Except.error Fault.blockOverrun ∧
      deleteSong [songA, { artist := [120], songName := longName ++ [33], genre := [114] }]
          longName =
        Except.ok ([Output.songNameNotFound longName],
          [songA, { artist := [120], songName := longName ++ [33], genre := [114] }]) := by
  refine ⟨by decide, by decide, rfl, rfl⟩

/-- C10 (the code departs from it): on the empty chain (`head == NULL`) `searchSong` and
`songExists` read `previousNode->nextNode` through the null head, so `searchSong` and
`deleteSong` fault instead of reporting that the song was not found. -/
theorem lookups_on_empty_chain_fault (q : CString) :
    searchSong [] q = Except.error Fault.nullDeref ∧
      songExists [] q = Except.error Fault.nullDeref ∧
      deleteSong [] q = Except.error Fault.nullDeref :=
  ⟨rfl, rfl, rfl⟩

/-! ## Function `insertSong` on any chain -/

/-- Whatever the chain, `insertSong` either prints the duplicate message and leaves the
chain as it was, or prints nothing and links one new node in somewhere. -/
theorem insertSong_cases (name artist genre : CString) (l : Catalog)
    (hfit : allFit name artist genre) :
    insertSong name artist genre l = Except.ok ([Output.songNameDuplicate name], l) ∨
      ∃ pre post, l = pre ++ post ∧
        insertSong name artist genre l =
          Except.ok ([],
            pre ++ { artist := artist, songName := name, genre := genre } :: post) := by
  cases l with
  | nil => exact Or.inr ⟨[], [], rfl, insertSong_nil name artist genre hfit⟩
  | cons h rest =>
    by_cases h0 : h.songName = name
    · exact Or.inl (insertSong_dup_head name artist genre h rest h0)
    have h0b : ¬ strcmp name h.songName = 0 := fun e => h0 ((strcmp_eq_zero_iff _ _).1 e).symm
    by_cases hlt : strcmp name h.songName < 0
    · exact Or.inr ⟨[], h :: rest, rfl, insertSong_before_head name artist genre h rest hlt hfit⟩
    have hh : strcmp name h.songName > 0 := by omega
    cases rest with
    | nil => exact Or.inr ⟨[h], [], rfl, insertSong_single name artist genre h hh hfit⟩
    | cons y r =>
      by_cases hy : strcmp name y.songName > 0
      · rcases split_at_first_not (fun w : Node => strcmp name w.songName > 0) r with
          hall | ⟨seg, z, post, hr, hseg, hz⟩
        · right
          refine ⟨h :: y :: r, [], by simp, ?_⟩
          have := insertSong_end name artist genre h y r hh (by
            intro w hw
            rcases List.mem_cons.1 hw with e | e
            · exact e ▸ hy
            · exact hall w e) hfit
          simpa using this
        · subst hr
          have := insertSong_after name artist genre h y seg z post hh (by
            intro w hw
            rcases List.mem_cons.1 hw with e | e
            · exact e ▸ hy
            · exact hseg w e) hz (Or.inr hfit)
          by_cases hzn : z.songName = name
          · left
            simpa [hzn] using this
          · right
            simp only [hzn, if_false] at this
            exact ⟨h :: y :: seg ++ [z], post, by simp, by simpa using this⟩
      · have := insertSong_second name artist genre h y r hh hy (Or.inr hfit)
        by_cases hyn : y.songName = name
        · left
          simpa [hyn] using this
        · right
          simp only [hyn, if_false] at this
          exact ⟨[h], y :: r, rfl, this⟩

/-! ## Function `printList` -/

theorem printLoop_run :
    ∀ (rest front : List Node) (x : Node) (fuel j : Nat) (l : Catalog),
      l = front ++ x :: rest → rest.length + 1 ≤ fuel →
      ∃ out lastN, printLoop l fuel front.length (some j) =
          Except.ok (out, front.length + rest.length) ∧
        deref l (some (front.length + rest.length)) = Except.ok lastN ∧
        out ++ [Output.printNodeContents lastN] =
          (x :: rest).map Output.printNodeContents := by
  intro rest
  induction rest with
  | nil =>
    intro front x fuel j l hl hf
    obtain ⟨f, rfl⟩ : ∃ f, fuel = f + 1 := ⟨fuel - 1, by simp at hf; omega⟩
    subst hl
    refine ⟨[], x, ?_, ?_, ?_⟩
    · simp only [printLoop, deref_at, nextNodeOf_last, List.length_nil, Nat.add_zero]
    · simpa using deref_at front x []
    · simp
  | cons y rest ih =>
    intro front x fuel j l hl hf
    obtain ⟨f, rfl⟩ : ∃ f, fuel = f + 1 := ⟨fuel - 1, by simp at hf; omega⟩
    obtain ⟨out, lastN, h1, h2, h3⟩ := ih (front ++ [x]) y f (front.length + 1) l
      (by simp [hl]) (by simp at hf; omega)
    simp only [List.length_append, List.length_singleton] at h1 h2
    have e : front.length + 1 + rest.length = front.length + (rest.length + 1) := by omega
    rw [e] at h1 h2
    refine ⟨Output.printNodeContents x :: out, lastN, ?_, ?_, ?_⟩
    · subst hl
      simp only [printLoop, deref_at, nextNodeOf_at, h1, List.length_cons]
    · simpa using h2
    · simp only [List.cons_append, h3, List.map_cons]

/-- Function `printList` on a non-empty chain: the title, then every node from the head
to the last one. -/
theorem printList_cons (x : Node) (rest : List Node) :
    printList (x :: rest) =
      Except.ok (Output.printMusicLibraryTitle ::
        (x :: rest).map Output.printNodeContents) := by
  obtain ⟨out, lastN, h1, h2, h3⟩ := printLoop_run rest [] x (x :: rest).length
    (match nextNodeOf (x :: rest) 0 with | some j => j | none => 0) (x :: rest) rfl (by simp)
  simp only [List.length_nil, Nat.zero_add] at h1 h2
  have hloop : printLoop (x :: rest) (x :: rest).length 0 (nextNodeOf (x :: rest) 0) =
      Except.ok (out, rest.length) := by
    cases rest with
    | nil =>
      simp only [nextNodeOf_single, printLoop]
      simp only [nextNodeOf_single, printLoop] at h1
      exact h1
    | cons y r =>
      simp only [nextNodeOf_zero] at h1 ⊢
      exact h1
  simp only [printList, headPtr, deref_zero, hloop, h2]
  rw [← h3]
  simp

/-! ## The teardown -/

theorem positionAfterDelete_head (x y : Node) (r : List Node) :
    positionAfterDelete (x :: y :: r) x.songName 1 = Except.ok (some 0) := by
  have h1 := songExists_of_match x.songName [] x (y :: r) (by simp) rfl
  have h2 := rawSearchSong_first_match x.songName [] x (y :: r) (by simp) rfl
  simp only [List.nil_append, List.length_nil, if_true] at h1 h2
  simp only [positionAfterDelete, h1, h2]
  simp

theorem deleteSong_head (x : Node) (rest : List Node) :
    deleteSong (x :: rest) x.songName =
      Except.ok ([Output.songNameDeleted x.songName], rest) := by
  have h := deleteSong_first_match x.songName [] x rest (by simp) rfl
  simpa using h

/-- One execution of the body of the teardown loop on a chain of two nodes or more: the
head is deleted, and the loop goes on with `previousNode` at the node that was next, now
the head. -/
theorem teardownLoop_body (x y : Node) (r : List Node) (fuel j : Nat) :
    teardownLoop (fuel + 1) (x :: y :: r) 0 (some j) =
      match teardownLoop fuel (y :: r) 0 (some 0) with
      | Except.error e => Except.error e
      | Except.ok (calls, l3, last) =>
        Except.ok (([Output.songNameDeleted x.songName], y :: r) :: calls, l3, last) := by
  rw [teardownLoop.eq_3]
  simp only [deref_zero, nextNodeOf_zero, deleteSong_head, positionAfterDelete_head]

theorem teardownLoop_run :
    ∀ (rest : List Node) (x : Node) (fuel j : Nat), rest.length + 1 ≤ fuel →
      ∃ calls lastN, teardownLoop fuel (x :: rest) 0 (some j) =
          Except.ok (calls, [lastN], 0) ∧
        calls ++ [([Output.songNameDeleted lastN.songName], [])] = headDeletes (x :: rest) := by
  intro rest
  induction rest with
  | nil =>
    intro x fuel j hf
    obtain ⟨f, rfl⟩ : ∃ f, fuel = f + 1 := ⟨fuel - 1, by simp at hf; omega⟩
    refine ⟨[], x, ?_, ?_⟩
    · simp only [teardownLoop, deref_zero, nextNodeOf_single]
    · simp [headDeletes]
  | cons y r ih =>
    intro x fuel j hf
    obtain ⟨f, rfl⟩ : ∃ f, fuel = f + 1 := ⟨fuel - 1, by simp at hf; omega⟩
    obtain ⟨calls, lastN, h1, h2⟩ := ih y f 0 (by simp at hf; omega)
    refine ⟨([Output.songNameDeleted x.songName], y :: r) :: calls, lastN, ?_, ?_⟩
    · rw [teardownLoop_body, h1]
    · rw [List.cons_append, h2]
      simp [headDeletes]

/-- The teardown on a non-empty chain makes exactly the calls of `headDeletes` and has
emptied the chain when it comes to `headOfList = NULL`. -/
theorem teardown_cons (x : Node) (rest : List Node) :
    teardown (x :: rest) = Except.ok (headDeletes (x :: rest), [], []) := by
  obtain ⟨calls, lastN, h1, h2⟩ := teardownLoop_run rest x (x :: rest).length
    (match nextNodeOf (x :: rest) 0 with | some j => j | none => 0) (by simp)
  have hloop : teardownLoop (x :: rest).length (x :: rest) 0 (nextNodeOf (x :: rest) 0) =
      Except.ok (calls, [lastN], 0) := by
    cases rest with
    | nil =>
      simp only [nextNodeOf_single, teardownLoop]
      simp only [nextNodeOf_single, teardownLoop] at h1
      exact h1
    | cons y r =>
      simp only [nextNodeOf_zero] at h1 ⊢
      exact h1
  simp only [teardown, headPtr, deref_zero, hloop, deleteSong_head, h2]

theorem headDeletes_length (l : Catalog) : (headDeletes l).length = l.length := by
  induction l with
  | nil => rfl
  | cons x rest ih => simp [headDeletes, ih]

/-! ## Every loop stops within as many executions of its body as the chain has nodes -/

theorem deref_of_lt {l : Catalog} {k : Nat} (hk : k < l.length) :
    ∃ nd, deref l (some k) = Except.ok nd := by
  refine ⟨l[k], ?_⟩
  simp [deref, List.getElem?_eq_getElem hk]

theorem nextNodeOf_of_lt {l : Catalog} {k : Nat} (hk : k + 1 < l.length) :
    nextNodeOf l k = some (k + 1) := by
  simp [nextNodeOf, hk]

theorem nextNodeOf_of_not_lt {l : Catalog} {k : Nat} (hk : ¬ k + 1 < l.length) :
    nextNodeOf l k = none := by
  simp [nextNodeOf, hk]

/-- One execution of the body of the loop of `insertSong` either leaves the loop with
`previousNode` where it was, or goes on with `previousNode` one node further. -/
theorem insertLoop_body (l : Catalog) (name : CString) (fuel k j : Nat)
    (hk : k < l.length) (hj : j < l.length) :
    insertLoop l name (fuel + 1) k (some j) = insertLoop l name fuel (k + 1) (some (k + 1)) ∨
      ∃ nx, insertLoop l name (fuel + 1) k (some j) = Except.ok (k, nx) := by
  obtain ⟨nj, hnj⟩ := deref_of_lt hj
  obtain ⟨nk, hnk⟩ := deref_of_lt hk
  rw [insertLoop.eq_3]
  simp only [hnj, hnk]
  by_cases hc : strcmp name nj.songName > 0
  · simp only [hc, if_true]
    by_cases hk1 : k + 1 < l.length
    · left
      simp only [nextNodeOf_of_lt hk1]
    · right
      exact ⟨none, by simp only [nextNodeOf_of_not_lt hk1]⟩
  · right
    exact ⟨some j, by simp only [hc, if_false]⟩

theorem insertLoop_terminates (l : Catalog) (name : CString) :
    ∀ (fuel k j : Nat), k < l.length → j < l.length → l.length ≤ k + fuel →
      ∃ r, insertLoop l name fuel k (some j) = Except.ok r := by
  intro fuel
  induction fuel with
  | zero => intro k j hk _ hf; omega
  | succ f ih =>
    intro k j hk hj hf
    rcases insertLoop_body l name f k j hk hj with h | ⟨nx, h⟩
    · by_cases hk1 : k + 1 < l.length
      · rw [h]
        exact ih (k + 1) (k + 1) hk1 hk1 (by omega)
      · obtain ⟨nj, hnj⟩ := deref_of_lt hj
        obtain ⟨nk, hnk⟩ := deref_of_lt hk
        rw [insertLoop.eq_3]
        simp only [hnj, hnk, nextNodeOf_of_not_lt hk1]
        by_cases hc : strcmp name nj.songName > 0
        · exact ⟨_, by simp only [hc, if_true]; rfl⟩
        · exact ⟨_, by simp only [hc, if_false]; rfl⟩
    · exact ⟨_, h⟩

/-- One execution of the body of the loop of `searchSong` either leaves the loop with
`previousNode` where it was, or goes on with `previousNode` one node further. -/
theorem searchLoop_body (l : Catalog) (q : CString) (fuel k j : Nat) (hk : k < l.length) :
    searchLoop l q (fuel + 1) k (some j) = searchLoop l q fuel (k + 1) (some (k + 1)) ∨
      (∃ nx, searchLoop l q (fuel + 1) k (some j) = Except.ok (ScanExit.fellThrough k nx)) ∨
      ∃ nx f, searchLoop l q (fuel + 1) k (some j) = Except.ok (ScanExit.hit k nx f) := by
  obtain ⟨nk, hnk⟩ := deref_of_lt hk
  rw [searchLoop.eq_3]
  simp only [hnk]
  by_cases hk1 : k + 1 < l.length
  · obtain ⟨nn, hnn⟩ := deref_of_lt hk1
    simp only [nextNodeOf_of_lt hk1, hnn]
    by_cases h1 : strcmp nk.songName q = 0
    · right; right
      exact ⟨_, _, by simp only [h1, if_true]; rfl⟩
    · by_cases h2 : strcmp nn.songName q = 0
      · right; right
        exact ⟨_, _, by simp only [h1, h2, if_true, if_false]; rfl⟩
      · left
        simp only [h1, h2, if_false]
  · right; left
    exact ⟨none, by simp only [nextNodeOf_of_not_lt hk1]⟩

theorem searchLoop_terminates (l : Catalog) (q : CString) :
    ∀ (fuel k j : Nat), k < l.length → l.length ≤ k + fuel →
      ∃ r, searchLoop l q fuel k (some j) = Except.ok r := by
  intro fuel
  induction fuel with
  | zero => intro k j hk hf; omega
  | succ f ih =>
    intro k j hk hf
    rcases searchLoop_body l q f k j hk with h | ⟨nx, h⟩ | ⟨nx, g, h⟩
    · by_cases hk1 : k + 1 < l.length
      · rw [h]
        exact ih (k + 1) (k + 1) hk1 (by omega)
      · obtain ⟨nk, hnk⟩ := deref_of_lt hk
        rw [searchLoop.eq_3]
        simp only [hnk, nextNodeOf_of_not_lt hk1]
        exact ⟨_, rfl⟩
    · exact ⟨_, h⟩
    · exact ⟨_, h⟩

/-- One execution of the body of the loop of `rawSearchSong` either returns or leaves the
loop with `previousNode` where it was, or goes on with `previousNode` one node further. -/
theorem rawSearchLoop_body (l : Catalog) (q : CString) (fuel k j : Nat) (pp : Ptr)
    (hk : k < l.length) :
    rawSearchLoop l q (fuel + 1) pp k (some j) =
        rawSearchLoop l q fuel (some (k + 1)) (k + 1) (some (k + 1)) ∨
      (∃ nx, rawSearchLoop l q (fuel + 1) pp k (some j) = Except.ok (Sum.inr (k, nx))) ∨
      ∃ r, rawSearchLoop l q (fuel + 1) pp k (some j) = Except.ok (Sum.inl r) := by
  obtain ⟨nk, hnk⟩ := deref_of_lt hk
  rw [rawSearchLoop.eq_3]
  simp only [hnk]
  by_cases hk1 : k + 1 < l.length
  · obtain ⟨nn, hnn⟩ := deref_of_lt hk1
    simp only [nextNodeOf_of_lt hk1, hnn]
    by_cases h1 : strcmp nk.songName q = 0
    · right; right
      exact ⟨_, by simp only [h1, if_true]; rfl⟩
    · by_cases h2 : strcmp nn.songName q = 0
      · right; right
        exact ⟨_, by simp only [h1, h2, if_true, if_false]; rfl⟩
      · left
        simp only [h1, h2, if_false]
  · right; left
    exact ⟨none, by simp only [nextNodeOf_of_not_lt hk1]⟩

theorem rawSearchLoop_terminates (l : Catalog) (q : CString) :
    ∀ (fuel k j : Nat) (pp : Ptr), k < l.length → l.length ≤ k + fuel →
      ∃ r, rawSearchLoop l q fuel pp k (some j) = Except.ok r := by
  intro fuel
  induction fuel with
  | zero => intro k j pp hk hf; omega
  | succ f ih =>
    intro k j pp hk hf
    rcases rawSearchLoop_body l q f k j pp hk with h | ⟨nx, h⟩ | ⟨r, h⟩
    · by_cases hk1 : k + 1 < l.length
      · rw [h]
        exact ih (k + 1) (k + 1) _ hk1 (by omega)
      · obtain ⟨nk, hnk⟩ := deref_of_lt hk
        rw [rawSearchLoop.eq_3]
        simp only [hnk, nextNodeOf_of_not_lt hk1]
        exact ⟨_, rfl⟩
    · exact ⟨_, h⟩
    · exact ⟨_, h⟩

/-- One execution of the body of the loop of `songExists` either leaves the loop with
`previousNode` where it was, or goes on with `previousNode` one node further. -/
theorem existsLoop_body (l : Catalog) (q : CString) (fuel k j : Nat) (hk : k < l.length) :
    existsLoop l q (fuel + 1) k (some j) = existsLoop l q fuel (k + 1) (some (k + 1)) ∨
      ∃ nx found, existsLoop l q (fuel + 1) k (some j) = Except.ok (k, nx, found) := by
  obtain ⟨nk, hnk⟩ := deref_of_lt hk
  rw [existsLoop.eq_3]
  simp only [hnk]
  by_cases hk1 : k + 1 < l.length
  · obtain ⟨nn, hnn⟩ := deref_of_lt hk1
    simp only [nextNodeOf_of_lt hk1, hnn]
    by_cases h1 : strcmp nk.songName q = 0
    · right
      exact ⟨_, _, by simp only [h1, if_true]; rfl⟩
    · by_cases h2 : strcmp nn.songName q = 0
      · right
        exact ⟨_, _, by simp only [h1, h2, if_true, if_false]; rfl⟩
      · left
        simp only [h1, h2, if_false]
  · right
    exact ⟨none, false, by simp only [nextNodeOf_of_not_lt hk1]⟩

theorem existsLoop_terminates (l : Catalog) (q : CString) :
    ∀ (fuel k j : Nat), k < l.length → l.length ≤ k + fuel →
      ∃ r, existsLoop l q fuel k (some j) = Except.ok r := by
  intro fuel
  induction fuel with
  | zero => intro k j hk hf; omega
  | succ f ih =>
    intro k j hk hf
    rcases existsLoop_body l q f k j hk with h | ⟨nx, b, h⟩
    · by_cases hk1 : k + 1 < l.length
      · rw [h]
        exact ih (k + 1) (k + 1) hk1 (by omega)
      · obtain ⟨nk, hnk⟩ := deref_of_lt hk
        rw [existsLoop.eq_3]
        simp only [hnk, nextNodeOf_of_not_lt hk1]
        exact ⟨_, rfl⟩
    · exact ⟨_, h⟩

/-- One execution of the body of the loop of `printList` either leaves the loop with
`previousNode` where it was, or prints that node and goes on with `previousNode` one node
further. -/
theorem printLoop_body (l : Catalog) (fuel k j : Nat) (hk : k < l.length) :
    (∃ nd, deref l (some k) = Except.ok nd ∧
        printLoop l (fuel + 1) k (some j) =
          match printLoop l fuel (k + 1) (some (k + 1)) with
          | Except.error e => Except.error e
          | Except.ok (out, last) => Except.ok (Output.printNodeContents nd :: out, last)) ∨
      printLoop l (fuel + 1) k (some j) = Except.ok ([], k) := by
  obtain ⟨nk, hnk⟩ := deref_of_lt hk
  rw [printLoop.eq_3]
  simp only [hnk]
  by_cases hk1 : k + 1 < l.length
  · left
    exact ⟨nk, rfl, by rw [nextNodeOf_of_lt hk1]⟩
  · right
    simp only [nextNodeOf_of_not_lt hk1]

theorem printLoop_terminates (l : Catalog) :
    ∀ (fuel k j : Nat), k < l.length → l.length ≤ k + fuel →
      ∃ r, printLoop l fuel k (some j) = Except.ok r := by
  intro fuel
  induction fuel with
  | zero => intro k j hk hf; omega
  | succ f ih =>
    intro k j hk hf
    rcases printLoop_body l f k j hk with ⟨nd, _, h⟩ | h
    · by_cases hk1 : k + 1 < l.length
      · obtain ⟨r, hr⟩ := ih (k + 1) (k + 1) hk1 (by omega)
        rw [h, hr]
        exact ⟨_, rfl⟩
      · obtain ⟨nk, hnk⟩ := deref_of_lt hk
        rw [printLoop.eq_3]
        simp only [hnk, nextNodeOf_of_not_lt hk1]
        exact ⟨_, rfl⟩
    · exact ⟨_, h⟩

/-- The first `nextNode` of every loop, `head->nextNode`, is `NULL` or a node of the chain. -/
theorem nextNodeOf_zero_cases (l : Catalog) :
    nextNodeOf l 0 = none ∨ (nextNodeOf l 0 = some 1 ∧ 1 < l.length) := by
  by_cases h : 0 + 1 < l.length
  · right
    exact ⟨nextNodeOf_of_lt h, by omega⟩
  · left
    exact nextNodeOf_of_not_lt h

/-! ## Reading a line -/

theorem store_of_lt (s : List Int) (i : Nat) (c : Int) (hi : i < s.length) :
    store s (i : Int) c = Except.ok (s.set i c) := by
  have h : (0 : Int) ≤ (i : Int) ∧ (i : Int) < (s.length : Int) := ⟨by omega, by omega⟩
  simp only [store, h, and_self, if_true, Int.toNat_ofNat]

theorem take_succ_set (s : List Int) (i : Nat) (c : Int) (hi : i < s.length) :
    (s.set i c).take (i + 1) = s.take i ++ [c] := by
  rw [List.set_eq_take_append_cons_drop, if_pos hi]
  have e : s.take i ++ c :: s.drop (i + 1) = (s.take i ++ [c]) ++ s.drop (i + 1) := by simp
  rw [e]
  apply List.take_left'
  simp
  omega

theorem drop_succ_set (s : List Int) (i n : Nat) (c : Int) :
    (s.set i c).drop (i + 1 + n) = s.drop (i + 1 + n) :=
  List.drop_set_of_lt c s (by omega)

/-- The loop of `inputStringFromUser` with `k` characters of room left before
`maxStrLength`: it stores the characters of `lineRead` from position `i` on and touches
nothing else. -/
theorem inputLoop_run (m : Nat) :
    ∀ (k fuel i : Nat) (s stdin : List Int), i + k = m → k ≤ fuel → i + k < s.length →
      ∃ rest, inputLoop (m : Int) fuel (i : Int) s stdin =
        Except.ok (((i + (lineRead stdin k).length : Nat) : Int),
          s.take i ++ lineRead stdin k ++ s.drop (i + (lineRead stdin k).length), rest) := by
  intro k
  induction k with
  | zero =>
    intro fuel i s stdin hik _ _
    have hlt : ¬ ((i : Int) < (m : Int)) := by omega
    refine ⟨stdin, ?_⟩
    cases fuel <;> simp [inputLoop, hlt, lineRead]
  | succ k ih =>
    intro fuel i s stdin hik hf hs
    have hlt : (i : Int) < (m : Int) := by omega
    by_cases hc : (getchar stdin).1 = 10
    · refine ⟨(getchar stdin).2, ?_⟩
      cases fuel <;> simp [inputLoop, hlt, hc, lineRead]
    · obtain ⟨f, rfl⟩ : ∃ f, fuel = f + 1 := ⟨fuel - 1, by omega⟩
      have hi : i < s.length := by omega
      obtain ⟨rest, hrest⟩ := ih f (i + 1) (s.set i (getchar stdin).1) (getchar stdin).2
        (by omega) (by omega) (by simp; omega)
      refine ⟨rest, ?_⟩
      rw [inputLoop.eq_2]
      simp only [hlt, hc, if_true, ne_eq, not_false_eq_true, store_of_lt s i _ hi]
      have e : ((i : Int) + 1) = ((i + 1 : Nat) : Int) := by simp
      rw [e, hrest, take_succ_set s i _ hi, drop_succ_set]
      simp only [lineRead, hc, if_false, List.length_cons]
      have e2 : i + 1 + (lineRead (getchar stdin).2 k).length =
          i + ((lineRead (getchar stdin).2 k).length + 1) := by omega
      rw [e2]
      simp

theorem lineRead_length_le (stdin : List Int) (m : Nat) : (lineRead stdin m).length ≤ m := by
  induction m generalizing stdin with
  | zero => simp [lineRead]
  | succ m ih =>
    simp only [lineRead]
    split_ifs
    · simp
    · have := ih (getchar stdin).2
      simp
      omega

/-- When the input holds a newline, or at least `m` characters, no read goes past its end:
`lineRead` is the input before its first newline, cut to `m` characters. -/
theorem lineRead_eq_takeWhile (stdin : List Int) (m : Nat)
    (h : (10 : Int) ∈ stdin ∨ m ≤ stdin.length) :
    lineRead stdin m = (stdin.takeWhile (fun c => decide (c ≠ 10))).take m := by
  induction m generalizing stdin with
  | zero => simp [lineRead]
  | succ m ih =>
    cases stdin with
    | nil => simp at h
    | cons c rest =>
      by_cases hc : c = 10
      · simp [lineRead, getchar, hc]
      · have h2 : (10 : Int) ∈ rest ∨ m ≤ rest.length := by
          rcases h with h | h
          · left
            rcases List.mem_cons.1 h with e | e
            · exact absurd e.symm hc
            · exact e
          · right
            simp at h
            omega
        simp [lineRead, getchar, hc, ih rest h2]

/-- Function `inputStringFromUser` with a buffer of more than `m` characters. -/
theorem inputStringFromUser_run (s stdin : List Int) (m : Nat) (hs : m + 1 ≤ s.length) :
    ∃ rest, inputStringFromUser s (m : Int) stdin =
      Except.ok (lineRead stdin m ++ 0 :: s.drop ((lineRead stdin m).length + 1), rest) := by
  obtain ⟨rest, hrest⟩ := inputLoop_run m m m 0 s stdin (by omega) (by omega) (by omega)
  refine ⟨rest, ?_⟩
  have hlen := lineRead_length_le stdin m
  simp only [Nat.zero_add, List.take_zero, List.nil_append, Nat.cast_zero] at hrest
  have hstore := store_of_lt (lineRead stdin m ++ s.drop (lineRead stdin m).length)
    (lineRead stdin m).length 0 (by simp; omega)
  simp only [inputStringFromUser, Int.toNat_ofNat, hrest, hstore]
  rw [List.set_eq_take_append_cons_drop, if_pos (by simp; omega)]
  rw [List.take_left, List.drop_append, List.drop_drop]

/-! ## When `insertSong` keeps the order -/

theorem pairwise_strictAscending {l : Catalog}
    (h : l.Pairwise (fun a b => strcmp a.songName b.songName < 0)) : StrictAscending l := by
  induction l with
  | nil => simp [StrictAscending]
  | cons a l ih =>
    cases l with
    | nil => simp [StrictAscending]
    | cons b rest =>
      rw [List.pairwise_cons] at h
      simp only [StrictAscending]
      exact ⟨h.1 b (by simp), ih h.2⟩

theorem betweenSecondAndLast_iff (name : CString) (h y : Node) (r : List Node) :
    betweenSecondAndLast name (h :: y :: r) = true ↔
      strcmp name y.songName > 0 ∧
        ∃ t, (y :: r).getLast? = some t ∧ strcmp name t.songName < 0 := by
  have e1 : (h :: y :: r)[1]? = some y := by simp
  have e2 : (h :: y :: r).getLast? = (y :: r).getLast? := by simp [List.getLast?_cons_cons]
  obtain ⟨t, ht⟩ : ∃ t, (y :: r).getLast? = some t :=
    ⟨(y :: r).getLast (by simp), List.getLast?_eq_getLast _ _⟩
  unfold betweenSecondAndLast
  rw [e1, e2, ht]
  simp

theorem insertSong_order (name artist genre : CString) (l : Catalog)
    (hs : StrictAscending l) (habs : ∀ y ∈ l, y.songName ≠ name)
    (hfit : allFit name artist genre) :
    ∃ l2, insertSong name artist genre l = Except.ok ([], l2) ∧
      (StrictAscending l2 ↔ betweenSecondAndLast name l = false) ∧
      (betweenSecondAndLast name l = true →
        ∃ pre z post, l = pre ++ z :: post ∧
          (∀ y ∈ pre, strcmp y.songName name < 0) ∧ strcmp name z.songName < 0 ∧
          l2 = pre ++ z :: { artist := artist, songName := name, genre := genre } :: post) := by
  have hp := strictAscending_pairwise hs
  cases l with
  | nil =>
    refine ⟨_, insertSong_nil name artist genre hfit, ?_, ?_⟩
    · simp [StrictAscending, betweenSecondAndLast]
    · simp [betweenSecondAndLast]
  | cons h rest =>
    have hne : h.songName ≠ name := habs h (by simp)
    have h0 : ¬ strcmp name h.songName = 0 := fun e => hne ((strcmp_eq_zero_iff _ _).1 e).symm
    rw [List.pairwise_cons] at hp
    by_cases hlt : strcmp name h.songName < 0
    · refine ⟨_, insertSong_before_head name artist genre h rest hlt hfit, ?_, ?_⟩
      · have hb : betweenSecondAndLast name (h :: rest) = false := by
          cases rest with
          | nil => simp [betweenSecondAndLast]
          | cons y r =>
            rw [Bool.eq_false_iff]
            intro hb
            have h1 := ((betweenSecondAndLast_iff name h y r).1 hb).1
            have h2 := strcmp_neg_trans hlt (hp.1 y (by simp))
            omega
        simp only [hb, iff_true]
        exact pairwise_strictAscending (List.pairwise_cons.2 ⟨by
          intro b hb2
          rcases List.mem_cons.1 hb2 with e | e
          · exact e ▸ hlt
          · exact strcmp_neg_trans hlt (hp.1 b e), List.pairwise_cons.2 hp⟩)
      · intro hb
        cases rest with
        | nil => simp [betweenSecondAndLast] at hb
        | cons y r =>
          have h1 := ((betweenSecondAndLast_iff name h y r).1 hb).1
          have h2 := strcmp_neg_trans hlt (hp.1 y (by simp))
          omega
    · have hh : strcmp name h.songName > 0 := by omega
      have hhn : strcmp h.songName name < 0 := (strcmp_pos_iff_swap_neg _ _).1 hh
      cases rest with
      | nil =>
        refine ⟨_, insertSong_single name artist genre h hh hfit, ?_, ?_⟩
        · simp [StrictAscending, betweenSecondAndLast, hhn]
        · simp [betweenSecondAndLast]
      | cons y r =>
        have hyn : y.songName ≠ name := habs y (by simp)
        have hy0 : ¬ strcmp name y.songName = 0 :=
          fun e => hyn ((strcmp_eq_zero_iff _ _).1 e).symm
        by_cases hy : strcmp name y.songName > 0
        · rcases split_at_first_not (fun w : Node => strcmp name w.songName > 0) r with
            hall | ⟨seg, z, post, hr, hseg, hz⟩
          · have hallL : ∀ w ∈ h :: y :: r, strcmp name w.songName > 0 := by
              intro w hw
              rcases List.mem_cons.1 hw with e | e
              · exact e ▸ hh
              · rcases List.mem_cons.1 e with e2 | e2
                · exact e2 ▸ hy
                · exact hall w e2
            have hins := insertSong_end name artist genre h y r hh (by
              intro w hw
              exact hallL w (List.mem_cons_of_mem _ hw)) hfit
            have hb : betweenSecondAndLast name (h :: y :: r) = false := by
              rw [Bool.eq_false_iff]
              intro hb
              obtain ⟨_, t, ht, hlt2⟩ := (betweenSecondAndLast_iff name h y r).1 hb
              have := hallL t (List.mem_cons_of_mem _ (List.mem_of_getLast?_eq_some ht))
              omega
            refine ⟨_, hins, ?_, ?_⟩
            · simp only [hb, iff_true]
              apply pairwise_strictAscending
              have e : h :: y :: r ++ [{ artist := artist, songName := name, genre := genre }]
                  = (h :: y :: r) ++ [{ artist := artist, songName := name, genre := genre }] :=
                rfl
              rw [e, List.pairwise_append]
              refine ⟨List.pairwise_cons.2 hp, List.pairwise_singleton _ _, ?_⟩
              intro a ha b hb2
              rw [List.mem_singleton] at hb2
              subst hb2
              exact (strcmp_pos_iff_swap_neg _ _).1 (hallL a ha)
            · intro hb2
              rw [hb] at hb2
              exact absurd hb2 (by decide)
          · subst hr
            have hzn : z.songName ≠ name := habs z (by simp)
            have hz0 : ¬ strcmp name z.songName = 0 :=
              fun e => hzn ((strcmp_eq_zero_iff _ _).1 e).symm
            have hzlt : strcmp name z.songName < 0 := by omega
            have hsegL : ∀ w ∈ y :: seg, strcmp name w.songName > 0 := by
              intro w hw
              rcases List.mem_cons.1 hw with e | e
              · exact e ▸ hy
              · exact hseg w e
            have hins := insertSong_after name artist genre h y seg z post hh hsegL hz (Or.inr hfit)
            simp only [hzn, if_false] at hins
            have hb : betweenSecondAndLast name (h :: y :: (seg ++ z :: post)) = true := by
              rw [betweenSecondAndLast_iff]
              refine ⟨hy, ?_⟩
              have hne2 : z :: post ≠ [] := by simp
              refine ⟨(z :: post).getLast hne2, ?_, ?_⟩
              · have e : y :: (seg ++ z :: post) = (y :: seg) ++ z :: post := rfl
                rw [e, List.getLast?_append_of_ne_nil _ hne2]
                exact List.getLast?_eq_getLast _ _
              · have hmem : (z :: post).getLast hne2 ∈ z :: post := List.getLast_mem hne2
                rcases List.mem_cons.1 hmem with e | e
                · rw [e]; exact hzlt
                · have hpz : (z :: post).Pairwise
                      (fun a b => strcmp a.songName b.songName < 0) := by
                    have := (List.pairwise_cons.1 hp.2).2
                    exact (List.pairwise_append.1 this).2.1
                  exact strcmp_neg_trans hzlt ((List.pairwise_cons.1 hpz).1 _ e)
            refine ⟨_, hins, ?_, ?_⟩
            · simp only [hb, Bool.true_eq_false, iff_false]
              intro hs2
              have hp2 := strictAscending_pairwise hs2
              have h3 := (List.pairwise_cons.1 (List.pairwise_cons.1 hp2).2).2
              have h4 := (List.pairwise_append.1 h3).2.1
              have h5 := (List.pairwise_cons.1 h4).1
                { artist := artist, songName := name, genre := genre } (by simp)
              have h6 := (strcmp_pos_iff_swap_neg _ _).2 h5
              exact hz h6
            · intro _
              refine ⟨h :: y :: seg, z, post, rfl, ?_, hzlt, rfl⟩
              intro w hw
              rcases List.mem_cons.1 hw with e | e
              · exact e ▸ hhn
              · exact (strcmp_pos_iff_swap_neg _ _).1 (hsegL w e)
        · have hylt : strcmp name y.songName < 0 := by omega
          have hins := insertSong_second name artist genre h y r hh hy (Or.inr hfit)
          simp only [hyn, if_false] at hins
          have hb : betweenSecondAndLast name (h :: y :: r) = false := by
            rw [Bool.eq_false_iff]
            intro hb
            exact hy ((betweenSecondAndLast_iff name h y r).1 hb).1
          refine ⟨_, hins, ?_, ?_⟩
          · simp only [hb, iff_true]
            have hs3 : StrictAscending (y :: r) := by
              simp only [StrictAscending] at hs
              exact hs.2
            simp only [StrictAscending]
            exact ⟨hhn, hylt, hs3⟩
          · intro hb2
            rw [hb] at hb2
            exact absurd hb2 (by decide)

theorem betweenSecondAndLast_length (name : CString) (l : Catalog)
    (h : betweenSecondAndLast name l = true) : 3 ≤ l.length := by
  cases l with
  | nil => simp [betweenSecondAndLast] at h
  | cons a l =>
    cases l with
    | nil => simp [betweenSecondAndLast] at h
    | cons b l =>
      cases l with
      | nil =>
        obtain ⟨h1, t, ht, h2⟩ := (betweenSecondAndLast_iff name a b []).1 h
        simp at ht
        subst ht
        omega
      | cons c l => simp

/-- Past the end of an input without a newline every read delivers `eofChar`. -/
theorem lineRead_past_end (stdin : List Int) (m : Nat) (hnl : (10 : Int) ∉ stdin)
    (hlen : stdin.length ≤ m) :
    lineRead stdin m = stdin ++ List.replicate (m - stdin.length) eofChar := by
  induction m generalizing stdin with
  | zero =>
    have : stdin = [] := List.length_eq_zero.1 (by omega)
    subst this
    simp [lineRead]
  | succ m ih =>
    cases stdin with
    | nil =>
      have h := ih [] (by simp) (by simp)
      simp only [List.length_nil, Nat.sub_zero, List.nil_append] at h
      have he : ¬ eofChar = 10 := by decide
      simp [lineRead, getchar, he, h, List.replicate_succ]
    | cons c rest =>
      have hc : ¬ c = 10 := fun e => hnl (by simp [e])
      have h := ih rest (fun e => hnl (List.mem_cons_of_mem _ e)) (by simp at hlen; omega)
      simp [lineRead, getchar, hc, h]

/-! ## The claims, continued -/

/-- For strings that fit their blocks: whatever the chain (ascending or not),
`insertSong` either prints the duplicate message and leaves the chain as it was, or prints
nothing and leaves the old chain with exactly one new node, holding the name, artist and
genre given, linked in at some position: the nodes before and after it are the old ones,
unchanged and in their order, and the chain is longer by exactly one. -/
theorem insertSong_only_adds_of_fit (name artist genre : CString) (l : Catalog)
    (hfit : allFit name artist genre) :
    insertSong name artist genre l = Except.ok ([Output.songNameDuplicate name], l) ∨
      ∃ pre post, l = pre ++ post ∧
        insertSong name artist genre l =
          Except.ok ([],
            pre ++ { artist := artist, songName := name, genre := genre } :: post) ∧
        (pre ++ { artist := artist, songName := name, genre := genre } :: post).length =
          l.length + 1 := by
  rcases insertSong_cases name artist genre l hfit with h | ⟨pre, post, hl, h⟩
  · exact Or.inl h
  · exact Or.inr ⟨pre, post, hl, h, by simp [hl]; omega⟩

theorem insertSong_only_adds_of_fit_witness :
    allFit [67] [122] [114] ∧
    (insertSong [67] [122] [114] [songA, songB, songD] =
        Except.ok ([Output.songNameDuplicate [67]], [songA, songB, songD]) ∨
      ∃ pre post, [songA, songB, songD] = pre ++ post ∧
        insertSong [67] [122] [114] [songA, songB, songD] =
          Except.ok ([],
            pre ++ { artist := [122], songName := [67], genre := [114] } :: post) ∧
        (pre ++ { artist := [122], songName := [67], genre := [114] } :: post).length =
          [songA, songB, songD].length + 1) :=
  ⟨by decide, insertSong_only_adds_of_fit [67] [122] [114] [songA, songB, songD] (by decide)⟩

/-- C11 (the code departs from it): for the 24-byte name `longName` and the chain "A", "B"
the call of `insertSong` neither prints the duplicate message nor leaves the old chain
with one new node that holds the name, artist and genre given: the terminator that
`strcpy` writes after the name goes past the block of 24 bytes that `malloc` handed out. -/
theorem insert_long_name_overruns :
    ¬ fits longName ∧
      insertSong longName [120] [114] [songA, songB] = Except.error Fault.blockOverrun ∧
      insertSong longName [120] [114] [songA, songB] ≠
        Except.ok ([Output.songNameDuplicate longName], [songA, songB]) ∧
      ∀ pre post, insertSong longName [120] [114] [songA, songB] ≠
        Except.ok ([],
          pre ++ { artist := [120], songName := longName, genre := [114] } :: post) := by
  have h : insertSong longName [120] [114] [songA, songB] =
      Except.error Fault.blockOverrun := rfl
  refine ⟨by decide, h, ?_, ?_⟩
  · rw [h]
    exact fun e => Except.noConfusion e
  · intro pre post
    rw [h]
    exact fun e => Except.noConfusion e

/-- C12: `printList` prints the empty-library message and no entry for the empty chain, and
for any other chain the title followed by the contents of every node exactly once, in list
order from the head to the last node.  (It is a function of the chain alone and stores
nothing, so a second call on the same chain prints the same.) -/
theorem printList_lists_every_entry (l : Catalog) :
    printList l =
      Except.ok
        (match l with
         | [] => [Output.printMusicLibraryEmpty]
         | _ :: _ => Output.printMusicLibraryTitle :: l.map Output.printNodeContents) := by
  cases l with
  | nil => rfl
  | cons x rest => exact printList_cons x rest

/-- C13: on every chain the teardown at the end of `main` makes exactly one call of
`deleteSong` per entry, each printing the deleted message for the entry that is the head at
that moment and leaving the chain without it, so the chain is already empty when
`headOfList = NULL` is reached; on the empty chain it makes no call and leaves it empty, so
a second teardown right after the first finds and leaves the empty chain. -/
theorem teardown_empties_chain (l : Catalog) :
    teardown l = Except.ok (headDeletes l, [], []) ∧
      (headDeletes l).length = l.length ∧
      teardown [] = Except.ok ([], [], []) := by
  refine ⟨?_, headDeletes_length l, rfl⟩
  cases l with
  | nil => rfl
  | cons x rest => exact teardown_cons x rest

/-- C14: on a non-empty chain each of the loops of `insertSong`, `searchSong`,
`rawSearchSong`, `songExists` and `printList`, and the teardown loop of `main`, started as
the function starts it, ends without running out of fuel as soon as the fuel is the number
of entries: it stops after at most that many executions of its body.  One execution of
the body either leaves the loop or goes on with `previousNode` one node further (in the
teardown: on the node that was next, which is the head once the old head is deleted). -/
theorem loops_stop_within_length (l : Catalog) (name : CString) (fuel : Nat)
    (hne : l ≠ []) (hf : l.length ≤ fuel) :
    ((∃ r, insertLoop l name fuel 0 (nextNodeOf l 0) = Except.ok r) ∧
      (∃ r, searchLoop l name fuel 0 (nextNodeOf l 0) = Except.ok r) ∧
      (∃ r, rawSearchLoop l name fuel none 0 (nextNodeOf l 0) = Except.ok r) ∧
      (∃ r, existsLoop l name fuel 0 (nextNodeOf l 0) = Except.ok r) ∧
      (∃ r, printLoop l fuel 0 (nextNodeOf l 0) = Except.ok r) ∧
      (∃ r, teardownLoop fuel l 0 (nextNodeOf l 0) = Except.ok r)) ∧
    ((∀ f k j, k < l.length → j < l.length →
        (insertLoop l name (f + 1) k (some j) = insertLoop l name f (k + 1) (some (k + 1)) ∨
          ∃ nx, insertLoop l name (f + 1) k (some j) = Except.ok (k, nx))) ∧
      (∀ f k j, k < l.length →
        (searchLoop l name (f + 1) k (some j) = searchLoop l name f (k + 1) (some (k + 1)) ∨
          (∃ nx, searchLoop l name (f + 1) k (some j) =
            Except.ok (ScanExit.fellThrough k nx)) ∨
          ∃ nx g, searchLoop l name (f + 1) k (some j) = Except.ok (ScanExit.hit k nx g))) ∧
      (∀ f k j pp, k < l.length →
        (rawSearchLoop l name (f + 1) pp k (some j) =
            rawSearchLoop l name f (some (k + 1)) (k + 1) (some (k + 1)) ∨
          (∃ nx, rawSearchLoop l name (f + 1) pp k (some j) = Except.ok (Sum.inr (k, nx))) ∨
          ∃ r, rawSearchLoop l name (f + 1) pp k (some j) = Except.ok (Sum.inl r))) ∧
      (∀ f k j, k < l.length →
        (existsLoop l name (f + 1) k (some j) = existsLoop l name f (k + 1) (some (k + 1)) ∨
          ∃ nx found, existsLoop l name (f + 1) k (some j) = Except.ok (k, nx, found))) ∧
      (∀ f k j, k < l.length →
        ((∃ nd, deref l (some k) = Except.ok nd ∧
            printLoop l (f + 1) k (some j) =
              match printLoop l f (k + 1) (some (k + 1)) with
              | Except.error e => Except.error e
              | Except.ok (out, last) =>
                Except.ok (Output.printNodeContents nd :: out, last)) ∨
          printLoop l (f + 1) k (some j) = Except.ok ([], k))) ∧
      (∀ f j x y r, l = x :: y :: r →
        teardownLoop (f + 1) l 0 (some j) =
          match teardownLoop f (y :: r) 0 (some 0) with
          | Except.error e => Except.error e
          | Except.ok (calls, l3, last) =>
            Except.ok (([Output.songNameDeleted x.songName], y :: r) :: calls, l3, last))) := by
  have hpos : 0 < l.length := List.length_pos.2 hne
  refine ⟨⟨?_, ?_, ?_, ?_, ?_, ?_⟩, ?_, ?_, ?_, ?_, ?_, ?_⟩
  · rcases nextNodeOf_zero_cases l with h | ⟨h, h1⟩
    · rw [h, insertLoop.eq_1]; exact ⟨_, rfl⟩
    · rw [h]; exact insertLoop_terminates l name fuel 0 1 hpos h1 (by omega)
  · rcases nextNodeOf_zero_cases l with h | ⟨h, _⟩
    · rw [h, searchLoop.eq_1]; exact ⟨_, rfl⟩
    · rw [h]; exact searchLoop_terminates l name fuel 0 1 hpos (by omega)
  · rcases nextNodeOf_zero_cases l with h | ⟨h, _⟩
    · rw [h, rawSearchLoop.eq_1]; exact ⟨_, rfl⟩
    · rw [h]; exact rawSearchLoop_terminates l name fuel 0 1 none hpos (by omega)
  · rcases nextNodeOf_zero_cases l with h | ⟨h, _⟩
    · rw [h, existsLoop.eq_1]; exact ⟨_, rfl⟩
    · rw [h]; exact existsLoop_terminates l name fuel 0 1 hpos (by omega)
  · rcases nextNodeOf_zero_cases l with h | ⟨h, _⟩
    · rw [h, printLoop.eq_1]; exact ⟨_, rfl⟩
    · rw [h]; exact printLoop_terminates l fuel 0 1 hpos (by omega)
  · cases l with
    | nil => exact absurd rfl hne
    | cons x rest =>
      rcases nextNodeOf_zero_cases (x :: rest) with h | ⟨h, _⟩
      · rw [h, teardownLoop.eq_1]; exact ⟨_, rfl⟩
      · rw [h]
        obtain ⟨calls, lastN, h1, _⟩ := teardownLoop_run rest x fuel 1 (by simp at hf; omega)
        exact ⟨_, h1⟩
  · intro f k j hk hj
    exact insertLoop_body l name f k j hk hj
  · intro f k j hk
    exact searchLoop_body l name f k j hk
  · intro f k j pp hk
    exact rawSearchLoop_body l name f k j pp hk
  · intro f k j hk
    exact existsLoop_body l name f k j hk
  · intro f k j hk
    exact printLoop_body l f k j hk
  · intro f j x y r hl
    rw [hl]
    exact teardownLoop_body x y r f j

theorem loops_stop_within_length_witness :
    ([songA, songB, songD] : Catalog) ≠ [] ∧ [songA, songB, songD].length ≤ 3 ∧
    ((∃ r, insertLoop [songA, songB, songD] [67] 3 0 (nextNodeOf [songA, songB, songD] 0) =
        Except.ok r) ∧
      (∃ r, searchLoop [songA, songB, songD] [67] 3 0 (nextNodeOf [songA, songB, songD] 0) =
        Except.ok r) ∧
      (∃ r, rawSearchLoop [songA, songB, songD] [67] 3 none 0
        (nextNodeOf [songA, songB, songD] 0) = Except.ok r) ∧
      (∃ r, existsLoop [songA, songB, songD] [67] 3 0 (nextNodeOf [songA, songB, songD] 0) =
        Except.ok r) ∧
      (∃ r, printLoop [songA, songB, songD] 3 0 (nextNodeOf [songA, songB, songD] 0) =
        Except.ok r) ∧
      (∃ r, teardownLoop 3 [songA, songB, songD] 0 (nextNodeOf [songA, songB, songD] 0) =
        Except.ok r)) :=
  ⟨by decide, by decide,
    (loops_stop_within_length [songA, songB, songD] [67] 3 (by decide) (by decide)).1⟩

/-- C15: on a non-empty chain, when some entry carries `name`, `rawSearchSong` returns the
first node of that name and stores in `*songBeforeSearchedSong` the node right before it,
which is `NULL` exactly when the node returned is the head; when no entry carries `name`
it returns `NULL` and stores `NULL`. -/
theorem rawSearchSong_true_predecessor (l : Catalog) (name : CString) (hne : l ≠ []) :
    (name ∈ songNames l →
      ∃ pre nd post, l = pre ++ nd :: post ∧ name ∉ songNames pre ∧ nd.songName = name ∧
        deref l (some pre.length) = Except.ok nd ∧
        rawSearchSong l name =
          Except.ok (some pre.length,
            if pre.length = 0 then none else some (pre.length - 1))) ∧
      (name ∉ songNames l → rawSearchSong l name = Except.ok (none, none)) := by
  constructor
  · intro hmem
    obtain ⟨pre, nd, post, hl, hpre, hnd⟩ := split_at_first_named hmem
    refine ⟨pre, nd, post, hl, not_mem_songNames.2 hpre, hnd, ?_, ?_⟩
    · rw [hl]
      exact deref_at pre nd post
    · rw [hl]
      exact rawSearchSong_first_match name pre nd post hpre hnd
  · intro habs
    exact rawSearchSong_no_match name l hne (not_mem_songNames.1 habs)

theorem rawSearchSong_true_predecessor_witness :
    ([songA, songB, songD, songC2, songC] : Catalog) ≠ [] ∧
    (([67] ∈ songNames [songA, songB, songD, songC2, songC] →
      ∃ pre nd post, [songA, songB, songD, songC2, songC] = pre ++ nd :: post ∧
        [67] ∉ songNames pre ∧ nd.songName = [67] ∧
        deref [songA, songB, songD, songC2, songC] (some pre.length) = Except.ok nd ∧
        rawSearchSong [songA, songB, songD, songC2, songC] [67] =
          Except.ok (some pre.length,
            if pre.length = 0 then none else some (pre.length - 1))) ∧
      ([67] ∉ songNames [songA, songB, songD, songC2, songC] →
        rawSearchSong [songA, songB, songD, songC2, songC] [67] = Except.ok (none, none))) :=
  ⟨by decide,
    rawSearchSong_true_predecessor [songA, songB, songD, songC2, songC] [67] (by decide)⟩

/-- C16: on a non-empty chain `songExists` returns true exactly when some entry carries
`name`, `rawSearchSong` returns a node (not `NULL`) exactly then, and `searchSong` prints the
found message exactly then (and the not-found message otherwise); hence whenever
`songExists` has returned true, `rawDeleteSong`, as `deleteSong` then calls it, returns
true. -/
theorem scans_agree_with_membership (l : Catalog) (name : CString) (hne : l ≠ []) :
    songExists l name = Except.ok (decide (name ∈ songNames l)) ∧
      (∃ r before, rawSearchSong l name = Except.ok (r, before) ∧
        (r ≠ none ↔ name ∈ songNames l)) ∧
      (∃ out, searchSong l name = Except.ok out ∧
        (Output.songNameFound name ∈ out ↔ name ∈ songNames l) ∧
        (Output.songNameNotFound name ∈ out ↔ name ∉ songNames l)) ∧
      (songExists l name = Except.ok true →
        ∃ l2, rawDeleteSong l name = Except.ok (true, l2)) := by
  by_cases hmem : name ∈ songNames l
  · obtain ⟨pre, nd, post, hl, hpre, hnd⟩ := split_at_first_named hmem
    subst hl
    refine ⟨?_, ?_, ?_, ?_⟩
    · rw [songExists_of_match name pre nd post hpre hnd]
      simp [hmem]
    · exact ⟨_, _, rawSearchSong_first_match name pre nd post hpre hnd, by simp [hmem]⟩
    · exact ⟨_, searchSong_first_match name pre nd post hpre hnd, by simp [hmem],
        by simp [hmem]⟩
    · intro _
      exact ⟨_, rawDeleteSong_first_match name pre nd post hpre hnd⟩
  · have hall := not_mem_songNames.1 hmem
    refine ⟨?_, ?_, ?_, ?_⟩
    · rw [songExists_no_match name l hne hall]
      simp [hmem]
    · exact ⟨_, _, rawSearchSong_no_match name l hne hall, by simp [hmem]⟩
    · exact ⟨_, searchSong_no_match name l hne hall, by simp [hmem], by simp [hmem]⟩
    · intro h
      rw [songExists_no_match name l hne hall] at h
      exact absurd h (by simp)

theorem scans_agree_with_membership_witness :
    ([songA, songB, songD] : Catalog) ≠ [] ∧
    (songExists [songA, songB, songD] [68] =
        Except.ok (decide ([68] ∈ songNames [songA, songB, songD])) ∧
      (∃ r before, rawSearchSong [songA, songB, songD] [68] = Except.ok (r, before) ∧
        (r ≠ none ↔ [68] ∈ songNames [songA, songB, songD])) ∧
      (∃ out, searchSong [songA, songB, songD] [68] = Except.ok out ∧
        (Output.songNameFound [68] ∈ out ↔ [68] ∈ songNames [songA, songB, songD]) ∧
        (Output.songNameNotFound [68] ∈ out ↔ [68] ∉ songNames [songA, songB, songD])) ∧
      (songExists [songA, songB, songD] [68] = Except.ok true →
        ∃ l2, rawDeleteSong [songA, songB, songD] [68] = Except.ok (true, l2))) :=
  ⟨by decide, scans_agree_with_membership [songA, songB, songD] [68] (by decide)⟩

/-- For strings that fit their blocks: on a strictly ascending chain without an entry
named `name`, `insertSong` prints nothing, and the chain it leaves is strictly ascending if
and only if it is not the case that `name` is greater than the second entry and smaller
than the last one (which takes at least three entries); in that case the new node stands
right after, not before, the first entry whose name is greater than `name`. -/
theorem insertSong_keeps_order_iff_of_fit (name artist genre : CString) (l : Catalog)
    (hs : StrictAscending l) (habs : name ∉ songNames l) (hfit : allFit name artist genre) :
    ∃ l2, insertSong name artist genre l = Except.ok ([], l2) ∧
      (StrictAscending l2 ↔ betweenSecondAndLast name l = false) ∧
      (betweenSecondAndLast name l = true → 3 ≤ l.length) ∧
      (betweenSecondAndLast name l = true →
        ∃ pre z post, l = pre ++ z :: post ∧
          (∀ y ∈ pre, strcmp y.songName name < 0) ∧ strcmp name z.songName < 0 ∧
          l2 = pre ++ z :: { artist := artist, songName := name, genre := genre } :: post) := by
  obtain ⟨l2, h1, h2, h3⟩ :=
    insertSong_order name artist genre l hs (not_mem_songNames.1 habs) hfit
  exact ⟨l2, h1, h2, betweenSecondAndLast_length name l, h3⟩

theorem insertSong_keeps_order_iff_of_fit_witness :
    StrictAscending [songA, songB, songD] ∧ [67] ∉ songNames [songA, songB, songD] ∧
    allFit [67] [122] [114] ∧
    ∃ l2, insertSong [67] [122] [114] [songA, songB, songD] = Except.ok ([], l2) ∧
      (StrictAscending l2 ↔ betweenSecondAndLast [67] [songA, songB, songD] = false) ∧
      (betweenSecondAndLast [67] [songA, songB, songD] = true →
        3 ≤ [songA, songB, songD].length) ∧
      (betweenSecondAndLast [67] [songA, songB, songD] = true →
        ∃ pre z post, [songA, songB, songD] = pre ++ z :: post ∧
          (∀ y ∈ pre, strcmp y.songName [67] < 0) ∧ strcmp [67] z.songName < 0 ∧
          l2 = pre ++ z :: { artist := [122], songName := [67], genre := [114] } :: post) :=
  ⟨by decide, by decide, by decide,
    insertSong_keeps_order_iff_of_fit [67] [122] [114] [songA, songB, songD] (by decide)
      (by decide) (by decide)⟩

/-- C17 (the code departs from it): the chain of the one entry named `longName` followed
by a space is strictly ascending, has no entry named `longName`, and `longName` is not
between a second and a last entry, so the claim has `insertSong` of `longName` leave an
ascending chain.  The terminator that `strcpy` writes after the 24-byte name goes past its
block; where the byte after the block then reads 33 (the character !, greater than the
space), the chain holds the name followed by that byte in front of the old entry, and is
not ascending. -/
theorem insert_long_name_breaks_order :
    StrictAscending [{ artist := [121], songName := longName ++ [32], genre := [114] }] ∧
      longName ∉ songNames [{ artist := [121], songName := longName ++ [32], genre := [114] }] ∧
      betweenSecondAndLast longName
        [{ artist := [121], songName := longName ++ [32], genre := [114] }] = false ∧
      ¬ fits longName ∧
      insertSong longName [120] [114]
        [{ artist := [121], songName := longName ++ [32], genre := [114] }] =
          Except.error Fault.blockOverrun ∧
      ¬ StrictAscending [{ artist := [120], songName := longName ++ [33], genre := [114] },
        { artist := [121], songName := longName ++ [32], genre := [114] }] := by
  refine ⟨by decide, by decide, rfl, by decide, rfl, by decide⟩

/-- C18 as stated fails at the end of the input: with room for four characters and the
input "ab" that ends without a newline, the reads past the end deliver `eofChar`, which is
stored too, so the buffer holds 97, 98, -1, -1 and then the terminator instead of 97, 98 and
the terminator. -/
theorem inputStringFromUser_stores_eof :
    inputStringFromUser [0, 0, 0, 0, 0] 4 [97, 98] = Except.ok ([97, 98, -1, -1, 0], []) ∧
      ¬ ∃ rest, inputStringFromUser [0, 0, 0, 0, 0] 4 [97, 98] =
        Except.ok
          ((List.takeWhile (fun c => decide (c ≠ 10)) [97, 98]).take 4 ++
            0 :: List.drop 3 [0, 0, 0, 0, 0], rest) := by
  refine ⟨rfl, ?_⟩
  rintro ⟨rest, h⟩
  have h0 : inputStringFromUser [0, 0, 0, 0, 0] 4 [97, 98] =
      Except.ok ([97, 98, -1, -1, 0], []) := rfl
  rw [h0] at h
  injection h with h1
  have h2 := (Prod.mk.inj h1).1
  exact absurd h2 (by decide)

/-- C18 (amended): for every input and every `maxStrLength` `m ≥ 0`, with a buffer of at
least `m + 1` characters `inputStringFromUser` returns (it neither overruns the buffer nor
runs out of fuel), having written only at positions `0..m`: the buffer then holds the
characters read, at most `m`, then the terminator, then what it held before.  The
characters read are those of the input before its first newline, cut to `m`, whenever the
input holds a newline or at least `m` characters; when the input ends before that, they are
the whole input followed by `eofChar` up to `m` characters. -/
theorem inputStringFromUser_in_bounds (s stdin : List Int) (m : Nat)
    (hs : m + 1 ≤ s.length) :
    (∃ rest, inputStringFromUser s (m : Int) stdin =
        Except.ok (lineRead stdin m ++ 0 :: s.drop ((lineRead stdin m).length + 1), rest)) ∧
      (lineRead stdin m).length ≤ m ∧
      ((10 : Int) ∈ stdin ∨ m ≤ stdin.length →
        lineRead stdin m = (stdin.takeWhile (fun c => decide (c ≠ 10))).take m) ∧
      ((10 : Int) ∉ stdin ∧ stdin.length ≤ m →
        lineRead stdin m = stdin ++ List.replicate (m - stdin.length) eofChar) :=
  ⟨inputStringFromUser_run s stdin m hs, lineRead_length_le stdin m,
    lineRead_eq_takeWhile stdin m, fun h => lineRead_past_end stdin m h.1 h.2⟩

theorem inputStringFromUser_in_bounds_witness :
    4 + 1 ≤ ([7, 7, 7, 7, 7] : List Int).length ∧
    ((∃ rest, inputStringFromUser [7, 7, 7, 7, 7] ((4 : Nat) : Int) [97, 98, 10, 99] =
        Except.ok (lineRead [97, 98, 10, 99] 4 ++
          0 :: List.drop ((lineRead [97, 98, 10, 99] 4).length + 1) [7, 7, 7, 7, 7], rest)) ∧
      (lineRead [97, 98, 10, 99] 4).length ≤ 4 ∧
      ((10 : Int) ∈ ([97, 98, 10, 99] : List Int) ∨ 4 ≤ ([97, 98, 10, 99] : List Int).length →
        lineRead [97, 98, 10, 99] 4 =
          (List.takeWhile (fun c => decide (c ≠ 10)) [97, 98, 10, 99]).take 4) ∧
      ((10 : Int) ∉ ([97, 98, 10, 99] : List Int) ∧ ([97, 98, 10, 99] : List Int).length ≤ 4 →
        lineRead [97, 98, 10, 99] 4 =
          [97, 98, 10, 99] ++ List.replicate (4 - ([97, 98, 10, 99] : List Int).length) eofChar)) :=
  ⟨by decide, inputStringFromUser_in_bounds [7, 7, 7, 7, 7] [97, 98, 10, 99] 4 (by decide)⟩

end MusicLibrary
